import Mathlib

/-!
Verification of the weather-fetch pipeline (scripts/fetch_weather.py).

The script is a single linear pipeline: build URL → HTTP GET →
raise_for_status → decode JSON → write pretty-printed raw JSON →
extract the four parallel hourly sequences → build rows (timestamp
parsed with a string fallback, numeric fields coerced to float and
rounded to 2 decimals) → DataFrame → dropna → sort_values("timestamp")
→ write clean CSV.

This file shallow-embeds that pipeline:
* a JSON document type `JValue` with a serializer modelling
  `json.dump(raw, f, indent=2)` (default `ensure_ascii=True`) and a
  parser modelling `json.loads`;
* a model of `datetime.fromisoformat` on the grammar
  `YYYY-MM-DD[<sep>HH:MM[:SS]]` (the subset on which all supported
  Python versions agree; fractional seconds are not modelled and no
  claim exercises them);
* numeric coercion `float(x)` and `round(x, 2)` over exact rationals
  (machine floats are not embedded; no claim exercises a binary
  representability boundary);
* the row-building loop, the pandas `dropna`/`sort_values` step and
  the file-system effects of the run, as a pure function from the
  prior file-system state and the HTTP outcome to the new state.
-/

namespace Weather

/-! ## Decimal digits -/

/-- One decimal digit character, matching `"0123456789"[d]`. -/
def digitCharM : Nat → Char
  | 0 => '0' | 1 => '1' | 2 => '2' | 3 => '3' | 4 => '4'
  | 5 => '5' | 6 => '6' | 7 => '7' | 8 => '8' | _ => '9'

/-- Numeric value of a decimal digit character. -/
def digitVal (c : Char) : Nat := c.toNat - 48

/-- Decimal rendering of a natural number, most significant digit first. -/
def natToDigits (n : Nat) : List Char :=
  if h : n < 10 then [digitCharM n]
  else natToDigits (n / 10) ++ [digitCharM (n % 10)]
  termination_by n
  decreasing_by exact Nat.div_lt_self (by omega) (by omega)

/-- Value of a digit string, most significant digit first. -/
def digitsToNat : List Char → Nat
  | [] => 0
  | c :: cs => digitVal c * 10 ^ cs.length + digitsToNat cs

theorem digitVal_digitCharM {d : Nat} (h : d < 10) :
    digitVal (digitCharM d) = d := by
  interval_cases d <;> rfl

theorem isDigit_digitCharM {d : Nat} (h : d < 10) :
    (digitCharM d).isDigit = true := by
  interval_cases d <;> rfl

theorem natToDigits_ne_nil (n : Nat) : natToDigits n ≠ [] := by
  rw [natToDigits]
  split <;> simp

theorem natToDigits_all_digits (n : Nat) :
    ∀ c ∈ natToDigits n, c.isDigit = true := by
  induction n using Nat.strong_induction_on with
  | _ n ih =>
    rw [natToDigits]
    split
    · next h =>
      intro c hc
      simp only [List.mem_singleton] at hc
      subst hc; exact isDigit_digitCharM h
    · next h =>
      intro c hc
      rcases List.mem_append.mp hc with h1 | h2
      · exact ih (n / 10) (Nat.div_lt_self (by omega) (by omega)) c h1
      · simp only [List.mem_singleton] at h2
        subst h2; exact isDigit_digitCharM (Nat.mod_lt _ (by omega))

theorem digitsToNat_append (a b : List Char) :
    digitsToNat (a ++ b) = digitsToNat a * 10 ^ b.length + digitsToNat b := by
  induction a with
  | nil => simp [digitsToNat]
  | cons c cs ih =>
    show digitVal c * 10 ^ (cs ++ b).length + digitsToNat (cs ++ b) = _
    rw [ih, List.length_append, pow_add]
    simp only [digitsToNat]
    ring

theorem digitsToNat_natToDigits (n : Nat) :
    digitsToNat (natToDigits n) = n := by
  induction n using Nat.strong_induction_on with
  | _ n ih =>
    rw [natToDigits]
    split
    · next h => simp [digitsToNat, digitVal_digitCharM h]
    · next h =>
      rw [digitsToNat_append,
        ih (n / 10) (Nat.div_lt_self (by omega) (by omega))]
      simp [digitsToNat, digitVal_digitCharM (Nat.mod_lt n (by omega))]
      omega

theorem natToDigits_length_le {n k : Nat} (hk : 1 ≤ k) (h : n < 10 ^ k) :
    (natToDigits n).length ≤ k := by
  induction n using Nat.strong_induction_on generalizing k with
  | _ n ih =>
    rw [natToDigits]
    split
    · next h10 => simpa using hk
    · next h10 =>
      have hk2 : 2 ≤ k := by
        by_contra hc
        have hke : k = 1 := by omega
        subst hke; simp at h; omega
      have hpow : 10 ^ k = 10 ^ (k - 1) * 10 := by
        conv_lhs => rw [show k = (k - 1) + 1 by omega]
        rw [pow_succ]
      have hdiv : n / 10 < 10 ^ (k - 1) :=
        (Nat.div_lt_iff_lt_mul (by omega)).mpr (by omega)
      have hlen := ih (n / 10) (Nat.div_lt_self (by omega) (by omega))
        (k := k - 1) (by omega) hdiv
      simp only [List.length_append, List.length_singleton]
      omega

/-! ## Whitespace and digit spans -/

/-- JSON whitespace characters skipped by the decoder. -/
def isWsChar (c : Char) : Bool :=
  c = ' ' || c = '\n' || c = '\t' || c = '\r'

/-- Drop leading JSON whitespace, as `json.loads` does between tokens. -/
def skipWs : List Char → List Char
  | [] => []
  | c :: cs => if isWsChar c then skipWs cs else c :: cs

theorem skipWs_cons_of_not_ws {c : Char} (h : isWsChar c = false) (cs : List Char) :
    skipWs (c :: cs) = c :: cs := by
  simp [skipWs, h]

theorem skipWs_cons_of_ws {c : Char} (h : isWsChar c = true) (cs : List Char) :
    skipWs (c :: cs) = skipWs cs := by
  simp [skipWs, h]

theorem skipWs_replicate_space (k : Nat) (cs : List Char) :
    skipWs (List.replicate k ' ' ++ cs) = skipWs cs := by
  induction k with
  | zero => simp
  | succ k ih => simpa [List.replicate_succ, skipWs] using ih

/-- Maximal run of decimal digits at the head of the input
(the token scan for a JSON number's digit groups). -/
def takeDigits : List Char → List Char × List Char
  | [] => ([], [])
  | c :: cs =>
    if c.isDigit then
      let p := takeDigits cs
      (c :: p.1, p.2)
    else ([], c :: cs)

theorem takeDigits_append {ds : List Char} (hds : ∀ c ∈ ds, c.isDigit = true)
    {rest : List Char} (hrest : ∀ c t, rest = c :: t → c.isDigit = false) :
    takeDigits (ds ++ rest) = (ds, rest) := by
  induction ds with
  | nil =>
    cases rest with
    | nil => rfl
    | cons c t => simp [takeDigits, hrest c t rfl]
  | cons c cs ih =>
    have hc : c.isDigit = true := hds c (by simp)
    have ih' := ih (fun x hx => hds x (by simp [hx]))
    simp [takeDigits, hc, ih']

/-! ## JSON numbers

Python's `json` writes an `int` as its decimal digits and a `float` by its
shortest decimal `repr`.  The model carries a number as a mantissa and a
count of decimal places (`m / 10 ^ e`, printed with exactly `e` digits after
the point, or as a plain integer when `e = 0`); exponent notation and the
non-standard `NaN`/`Infinity` tokens are outside the model, and no claim
exercises them. -/

/-- Fractional digit group of width `e` (leading zeros kept). -/
def padDigits (e r : Nat) : List Char :=
  List.replicate (e - (natToDigits r).length) '0' ++ natToDigits r

theorem padDigits_all_digits (e r : Nat) :
    ∀ c ∈ padDigits e r, c.isDigit = true := by
  intro c hc
  rcases List.mem_append.mp hc with h1 | h2
  · have : c = '0' := List.eq_of_mem_replicate h1
    subst this; rfl
  · exact natToDigits_all_digits r c h2

theorem padDigits_length {e r : Nat} (he : 1 ≤ e) (hr : r < 10 ^ e) :
    (padDigits e r).length = e := by
  have hle := natToDigits_length_le he hr
  simp [padDigits]
  omega

theorem digitsToNat_replicate_zero (k : Nat) :
    digitsToNat (List.replicate k '0') = 0 := by
  induction k with
  | zero => rfl
  | succ k ih => simp [List.replicate_succ, digitsToNat, ih, digitVal]

theorem digitsToNat_padDigits (e r : Nat) :
    digitsToNat (padDigits e r) = r := by
  rw [padDigits, digitsToNat_append, digitsToNat_replicate_zero,
    digitsToNat_natToDigits]
  simp

/-- Decimal text of `m / 10 ^ e`: sign, integer digits, and — when `e > 0` —
a point followed by exactly `e` fractional digits. -/
def renderNum (m : Int) (e : Nat) : List Char :=
  (if m < 0 then ['-'] else []) ++ natToDigits (m.natAbs / 10 ^ e)
    ++ (if e = 0 then [] else '.' :: padDigits e (m.natAbs % 10 ^ e))


/-- The suffixes the pretty-printer leaves after a value: end of input, a
`,` separator, or the newline that precedes a closing bracket.  None of
these characters can extend a number token. -/
def IsSep (rest : List Char) : Prop :=
  rest = [] ∨ (∃ t, rest = ',' :: t) ∨ (∃ t, rest = '\n' :: t)

theorem IsSep.head_not_digit {rest : List Char} (h : IsSep rest) :
    ∀ c t, rest = c :: t → c.isDigit = false := by
  intro c t hct
  rcases h with h | ⟨t', h⟩ | ⟨t', h⟩ <;> rw [h] at hct
  · simp at hct
  · cases hct; rfl
  · cases hct; rfl

theorem IsSep.head_ne_dot {rest : List Char} (h : IsSep rest) :
    rest.head? ≠ some '.' := by
  rcases h with h | ⟨t', h⟩ | ⟨t', h⟩ <;> subst h <;> simp

theorem digit_ne_minus {c : Char} (h : c.isDigit = true) : c ≠ '-' := by
  intro hc; subst hc; exact absurd h (by decide)

/-- Scan an unsigned decimal number token: digits, then an optional point
with a second digit group.  Returns the digit values and the decimal-place
count together with the unconsumed suffix. -/
def parseNumCore (cs : List Char) : Option ((Nat × Nat) × List Char) :=
  match takeDigits cs with
  | ([], _) => none
  | (d :: ds, rest1) =>
    if rest1.head? = some '.' then
      match takeDigits rest1.tail with
      | ([], _) => none
      | (f :: fs, rest2) =>
        some ((digitsToNat (d :: ds) * 10 ^ (f :: fs).length +
          digitsToNat (f :: fs), (f :: fs).length), rest2)
    else some ((digitsToNat (d :: ds), 0), rest1)

/-- Scan one decimal number token with an optional leading minus sign. -/
def parseNum (cs : List Char) : Option ((Int × Nat) × List Char) :=
  if cs.head? = some '-' then
    (parseNumCore cs.tail).map (fun r => ((-(r.1.1 : Int), r.1.2), r.2))
  else
    (parseNumCore cs).map (fun r => (((r.1.1 : Int), r.1.2), r.2))

theorem parseNumCore_int (n : Nat) {rest : List Char} (hsep : IsSep rest) :
    parseNumCore (natToDigits n ++ rest) = some ((n, 0), rest) := by
  have h1 : takeDigits (natToDigits n ++ rest) = (natToDigits n, rest) :=
    takeDigits_append (natToDigits_all_digits n) hsep.head_not_digit
  rcases hne : natToDigits n with _ | ⟨d, ds⟩
  · exact absurd hne (natToDigits_ne_nil n)
  · rw [parseNumCore]
    rw [hne] at h1
    simp only [h1, if_neg hsep.head_ne_dot]
    rw [← hne, digitsToNat_natToDigits]

theorem parseNumCore_frac (q r e : Nat) (he : 1 ≤ e) (hr : r < 10 ^ e)
    {rest : List Char} (hsep : IsSep rest) :
    parseNumCore (natToDigits q ++ ('.' :: (padDigits e r ++ rest))) =
      some ((q * 10 ^ e + r, e), rest) := by
  have h1 : takeDigits (natToDigits q ++ ('.' :: (padDigits e r ++ rest))) =
      (natToDigits q, '.' :: (padDigits e r ++ rest)) :=
    takeDigits_append (natToDigits_all_digits q)
      (by intro c t hct; cases hct; rfl)
  have h2 : takeDigits (padDigits e r ++ rest) = (padDigits e r, rest) :=
    takeDigits_append (padDigits_all_digits e r) hsep.head_not_digit
  have hflen : (padDigits e r).length = e := padDigits_length he hr
  rcases hne : natToDigits q with _ | ⟨d, ds⟩
  · exact absurd hne (natToDigits_ne_nil q)
  · rw [parseNumCore]
    rw [hne] at h1
    simp only [h1, List.head?_cons, if_pos rfl, List.tail_cons]
    rcases hfe : padDigits e r with _ | ⟨f, fs⟩
    · rw [hfe] at hflen; simp at hflen; omega
    · rw [hfe] at h2
      simp only [h2]
      rw [← hne, ← hfe, digitsToNat_natToDigits, digitsToNat_padDigits, hflen]
      simp

theorem parseNum_renderNum (m : Int) (e : Nat) {rest : List Char}
    (hsep : IsSep rest) :
    parseNum (renderNum m e ++ rest) = some ((m, e), rest) := by
  have hcore : parseNumCore (natToDigits (m.natAbs / 10 ^ e) ++
      ((if e = 0 then [] else '.' :: padDigits e (m.natAbs % 10 ^ e)) ++ rest)) =
      some ((m.natAbs, e), rest) := by
    by_cases he : e = 0
    · subst he
      simpa using parseNumCore_int m.natAbs hsep
    · have hdm : m.natAbs / 10 ^ e * 10 ^ e + m.natAbs % 10 ^ e = m.natAbs := by
        rw [Nat.mul_comm]
        exact Nat.div_add_mod _ _
      rw [if_neg he]
      simpa [hdm] using parseNumCore_frac (m.natAbs / 10 ^ e)
        (m.natAbs % 10 ^ e) e (by omega) (Nat.mod_lt _ (by positivity)) hsep
  have hbody : (natToDigits (m.natAbs / 10 ^ e) ++
      ((if e = 0 then [] else '.' :: padDigits e (m.natAbs % 10 ^ e)) ++
        rest)).head? ≠ some '-' := by
    rcases hne : natToDigits (m.natAbs / 10 ^ e) with _ | ⟨d, ds⟩
    · exact absurd hne (natToDigits_ne_nil _)
    · have hd : d.isDigit = true :=
        natToDigits_all_digits _ d (by rw [hne]; simp)
      simpa using digit_ne_minus hd
  by_cases hm : m < 0
  · have : renderNum m e ++ rest = '-' :: (natToDigits (m.natAbs / 10 ^ e) ++
        ((if e = 0 then [] else '.' :: padDigits e (m.natAbs % 10 ^ e)) ++
          rest)) := by
      simp [renderNum, if_pos hm, List.append_assoc]
    rw [this, parseNum]
    simp only [List.head?_cons, if_pos rfl, List.tail_cons, hcore,
      Option.map_some', Option.some.injEq, Prod.mk.injEq]
    simp [abs_of_neg hm]
  · have : renderNum m e ++ rest = natToDigits (m.natAbs / 10 ^ e) ++
        ((if e = 0 then [] else '.' :: padDigits e (m.natAbs % 10 ^ e)) ++
          rest) := by
      simp [renderNum, if_neg hm, List.append_assoc]
    rw [this, parseNum, if_neg hbody]
    simp only [hcore, Option.map_some', Option.some.injEq, Prod.mk.injEq]
    simp [abs_of_nonneg (by omega : (0 : Int) ≤ m)]

/-! ## JSON strings

`json.dump` runs with its default `ensure_ascii=True`: printable ASCII is
emitted literally, the two-character escapes cover the JSON short escapes,
and every other character becomes `\uXXXX` (a surrogate pair for
codepoints beyond the basic multilingual plane).  The decoder accepts the
same escapes, pairing surrogates back into one character. -/

/-- One lowercase hexadecimal digit character. -/
def hexDigitM : Nat → Char
  | 0 => '0' | 1 => '1' | 2 => '2' | 3 => '3' | 4 => '4'
  | 5 => '5' | 6 => '6' | 7 => '7' | 8 => '8' | 9 => '9'
  | 10 => 'a' | 11 => 'b' | 12 => 'c' | 13 => 'd' | 14 => 'e' | _ => 'f'

/-- Value of a hexadecimal digit character (either case accepted). -/
def hexVal (c : Char) : Option Nat :=
  if c.isDigit then some (c.toNat - 48)
  else if 'a' ≤ c ∧ c ≤ 'f' then some (c.toNat - 87)
  else if 'A' ≤ c ∧ c ≤ 'F' then some (c.toNat - 55)
  else none

theorem hexVal_hexDigitM {d : Nat} (h : d < 16) :
    hexVal (hexDigitM d) = some d := by
  interval_cases d <;> rfl

/-- Four hex digits of `n mod 2^16`, most significant first. -/
def hex4 (n : Nat) : List Char :=
  [hexDigitM (n / 4096 % 16), hexDigitM (n / 256 % 16),
   hexDigitM (n / 16 % 16), hexDigitM (n % 16)]

/-- The two-character escapes the decoder accepts after a backslash. -/
def escTable (e : Char) : Option Char :=
  if e = '"' then some '"'
  else if e = '\\' then some '\\'
  else if e = '/' then some '/'
  else if e = 'b' then some (Char.ofNat 8)
  else if e = 'f' then some (Char.ofNat 12)
  else if e = 'n' then some '\n'
  else if e = 'r' then some (Char.ofNat 13)
  else if e = 't' then some '\t'
  else none

/-- ASCII-escaped form of one character, after
`json.encoder.py_encode_basestring_ascii`. -/
def escapeChar (c : Char) : List Char :=
  if c = '"' then ['\\', '"']
  else if c = '\\' then ['\\', '\\']
  else if c = Char.ofNat 8 then ['\\', 'b']
  else if c = Char.ofNat 12 then ['\\', 'f']
  else if c = '\n' then ['\\', 'n']
  else if c = Char.ofNat 13 then ['\\', 'r']
  else if c = '\t' then ['\\', 't']
  else if 0x20 ≤ c.toNat ∧ c.toNat ≤ 0x7e then [c]
  else if c.toNat < 0x10000 then '\\' :: 'u' :: hex4 c.toNat
  else ('\\' :: 'u' :: hex4 (0xd800 + (c.toNat - 0x10000) / 0x400)) ++
    ('\\' :: 'u' :: hex4 (0xdc00 + (c.toNat - 0x10000) % 0x400))

/-- Escaped form of a whole string body (no surrounding quotes). -/
def escList : List Char → List Char
  | [] => []
  | c :: cs => escapeChar c ++ escList cs

theorem char_toNat_valid (c : Char) :
    c.toNat < 0xd800 ∨ (0xdfff < c.toNat ∧ c.toNat < 0x110000) := c.valid


/-- Decode four hex digits into a scalar value. -/
def parseHex4 (cs : List Char) : Option (Nat × List Char) :=
  match cs with
  | h1 :: h2 :: h3 :: h4 :: rest =>
    match hexVal h1, hexVal h2, hexVal h3, hexVal h4 with
    | some a1, some a2, some a3, some a4 =>
      some (((a1 * 16 + a2) * 16 + a3) * 16 + a4, rest)
    | _, _, _, _ => none
  | _ => none

/-- Decode one escape sequence (the part after the backslash): a short
escape from the table, or `uXXXX` hex — resolving a high/low surrogate
pair into a single character, as Python's decoder does. -/
def parseEsc (cs : List Char) : Option (Char × List Char) :=
  match cs with
  | [] => none
  | e :: rest2 =>
    if e = 'u' then
      match parseHex4 rest2 with
      | some (n, rest3) =>
        if 0xd800 ≤ n ∧ n ≤ 0xdbff then
          match rest3 with
          | s1 :: s2 :: rest3b =>
            if s1 = '\\' ∧ s2 = 'u' then
              match parseHex4 rest3b with
              | some (n2, rest4) =>
                if 0xdc00 ≤ n2 ∧ n2 ≤ 0xdfff then
                  some (Char.ofNat (0x10000 + (n - 0xd800) * 0x400 +
                    (n2 - 0xdc00)), rest4)
                else none
              | none => none
            else none
          | _ => none
        else if 0xdc00 ≤ n ∧ n ≤ 0xdfff then none
        else some (Char.ofNat n, rest3)
      | none => none
    else
      match escTable e with
      | some ec => some (ec, rest2)
      | none => none

/-- Decode a JSON string body after the opening quote: collect characters
until the closing quote, resolving escapes.  The fuel bounds the number
of decoded characters; every step consumes at least one input character,
so input length plus one is always enough. -/
def parseStr : Nat → List Char → Option (List Char × List Char)
  | 0, _ => none
  | _ + 1, [] => none
  | fuel + 1, c :: rest =>
    if c = '"' then some ([], rest)
    else if c = '\\' then
      match parseEsc rest with
      | some p => (parseStr fuel p.2).map (fun q => (p.1 :: q.1, q.2))
      | none => none
    else (parseStr fuel rest).map (fun q => (c :: q.1, q.2))

theorem hex4_assemble {n : Nat} (h : n < 0x10000) :
    ((n / 4096 % 16 * 16 + n / 256 % 16) * 16 + n / 16 % 16) * 16 + n % 16
      = n := by omega

theorem parseHex4_hex4 {n : Nat} (h : n < 0x10000) (tail : List Char) :
    parseHex4 (hex4 n ++ tail) = some (n, tail) := by
  have d1 : n / 4096 % 16 < 16 := Nat.mod_lt _ (by omega)
  have d2 : n / 256 % 16 < 16 := Nat.mod_lt _ (by omega)
  have d3 : n / 16 % 16 < 16 := Nat.mod_lt _ (by omega)
  have d4 : n % 16 < 16 := Nat.mod_lt _ (by omega)
  simp only [hex4, List.cons_append, List.nil_append, parseHex4,
    hexVal_hexDigitM d1, hexVal_hexDigitM d2, hexVal_hexDigitM d3,
    hexVal_hexDigitM d4, hex4_assemble h]

theorem parseEsc_named {e ec : Char} (hu : e ≠ 'u') (he : escTable e = some ec)
    (tail : List Char) : parseEsc (e :: tail) = some (ec, tail) := by
  simp [parseEsc, hu, he]

theorem parseEsc_u4 {n : Nat} (hlt : n < 0x10000)
    (hs1 : ¬(0xd800 ≤ n ∧ n ≤ 0xdbff)) (hs2 : ¬(0xdc00 ≤ n ∧ n ≤ 0xdfff))
    (tail : List Char) :
    parseEsc ('u' :: (hex4 n ++ tail)) = some (Char.ofNat n, tail) := by
  simp only [parseEsc, if_pos (rfl : ('u' : Char) = 'u'),
    parseHex4_hex4 hlt, if_neg hs1, if_neg hs2]
  simp

theorem parseEsc_upair {n : Nat} (hge : 0x10000 ≤ n) (hlt : n < 0x110000)
    (tail : List Char) :
    parseEsc ('u' :: (hex4 (0xd800 + (n - 0x10000) / 0x400) ++
      ('\\' :: 'u' :: hex4 (0xdc00 + (n - 0x10000) % 0x400)) ++ tail)) =
      some (Char.ofNat n, tail) := by
  have hmod := Nat.mod_lt (n - 0x10000) (show 0 < 0x400 by omega)
  have hhi : 0xd800 + (n - 0x10000) / 0x400 < 0x10000 := by omega
  have hlo : 0xdc00 + (n - 0x10000) % 0x400 < 0x10000 := by omega
  have hsurr : 0xd800 ≤ 0xd800 + (n - 0x10000) / 0x400 ∧
      0xd800 + (n - 0x10000) / 0x400 ≤ 0xdbff := by omega
  have hsurr2 : 0xdc00 ≤ 0xdc00 + (n - 0x10000) % 0x400 ∧
      0xdc00 + (n - 0x10000) % 0x400 ≤ 0xdfff := by omega
  have hcode : 0x10000 + (0xd800 + (n - 0x10000) / 0x400 - 0xd800) * 0x400 +
      (0xdc00 + (n - 0x10000) % 0x400 - 0xdc00) = n := by omega
  have hsplit : hex4 (0xd800 + (n - 0x10000) / 0x400) ++
      ('\\' :: 'u' :: hex4 (0xdc00 + (n - 0x10000) % 0x400)) ++ tail =
      hex4 (0xd800 + (n - 0x10000) / 0x400) ++
      ('\\' :: 'u' :: (hex4 (0xdc00 + (n - 0x10000) % 0x400) ++ tail)) := by
    simp [List.append_assoc]
  rw [hsplit]
  simp only [parseEsc, if_pos (rfl : ('u' : Char) = 'u'),
    parseHex4_hex4 hhi, if_pos hsurr,
    if_pos (⟨rfl, rfl⟩ : ('\\' : Char) = '\\' ∧ ('u' : Char) = 'u'),
    parseHex4_hex4 hlo, if_pos hsurr2, hcode]
  simp

/-- Every escape in the table maps back to its character; stated with the
concrete characters so it rewrites without metavariables. -/
theorem parseEsc_escapeChar {c : Char} {t : List Char}
    (h : escapeChar c = '\\' :: t) (tail : List Char) :
    parseEsc (t ++ tail) = some (c, tail) := by
  by_cases h1 : c = '"'
  · rw [escapeChar, if_pos h1] at h
    cases h
    subst h1
    exact parseEsc_named (by decide) (show escTable '"' = some '"' from rfl) tail
  by_cases h2 : c = '\\'
  · rw [escapeChar, if_neg h1, if_pos h2] at h
    cases h
    subst h2
    exact parseEsc_named (by decide)
      (show escTable '\\' = some '\\' from rfl) tail
  by_cases h3 : c = Char.ofNat 8
  · rw [escapeChar, if_neg h1, if_neg h2, if_pos h3] at h
    cases h
    subst h3
    exact parseEsc_named (by decide)
      (show escTable 'b' = some (Char.ofNat 8) from rfl) tail
  by_cases h4 : c = Char.ofNat 12
  · rw [escapeChar, if_neg h1, if_neg h2, if_neg h3, if_pos h4] at h
    cases h
    subst h4
    exact parseEsc_named (by decide)
      (show escTable 'f' = some (Char.ofNat 12) from rfl) tail
  by_cases h5 : c = '\n'
  · rw [escapeChar, if_neg h1, if_neg h2, if_neg h3, if_neg h4, if_pos h5] at h
    cases h
    subst h5
    exact parseEsc_named (by decide)
      (show escTable 'n' = some '\n' from rfl) tail
  by_cases h6 : c = Char.ofNat 13
  · rw [escapeChar, if_neg h1, if_neg h2, if_neg h3, if_neg h4, if_neg h5,
      if_pos h6] at h
    cases h
    subst h6
    exact parseEsc_named (by decide)
      (show escTable 'r' = some (Char.ofNat 13) from rfl) tail
  by_cases h7 : c = '\t'
  · rw [escapeChar, if_neg h1, if_neg h2, if_neg h3, if_neg h4, if_neg h5,
      if_neg h6, if_pos h7] at h
    cases h
    subst h7
    exact parseEsc_named (by decide)
      (show escTable 't' = some '\t' from rfl) tail
  by_cases h8 : 0x20 ≤ c.toNat ∧ c.toNat ≤ 0x7e
  · rw [escapeChar, if_neg h1, if_neg h2, if_neg h3, if_neg h4, if_neg h5,
      if_neg h6, if_neg h7, if_pos h8] at h
    exact absurd h (by simp [h2])
  by_cases h9 : c.toNat < 0x10000
  · rw [escapeChar, if_neg h1, if_neg h2, if_neg h3, if_neg h4, if_neg h5,
      if_neg h6, if_neg h7, if_neg h8, if_pos h9] at h
    cases h
    have hvalid := char_toNat_valid c
    have hu := parseEsc_u4 h9 (by omega) (by omega) tail
    rw [Char.ofNat_toNat] at hu
    rw [List.cons_append]
    exact hu
  · rw [escapeChar, if_neg h1, if_neg h2, if_neg h3, if_neg h4, if_neg h5,
      if_neg h6, if_neg h7, if_neg h8, if_neg h9] at h
    rw [List.cons_append, List.cons_append] at h
    cases h
    have hvalid := char_toNat_valid c
    have hu := parseEsc_upair (n := c.toNat) (by omega) (by omega) tail
    rw [Char.ofNat_toNat] at hu
    rw [List.cons_append]
    exact hu

/-- An escaped character either starts with a backslash or is the plain
printable character itself (never a quote or backslash). -/
theorem escapeChar_shape (c : Char) :
    (∃ t, escapeChar c = '\\' :: t) ∨
      (escapeChar c = [c] ∧ c ≠ '"' ∧ c ≠ '\\') := by
  rw [escapeChar]
  by_cases h1 : c = '"'
  · rw [if_pos h1]; exact Or.inl ⟨_, rfl⟩
  rw [if_neg h1]
  by_cases h2 : c = '\\'
  · rw [if_pos h2]; exact Or.inl ⟨_, rfl⟩
  rw [if_neg h2]
  by_cases h3 : c = Char.ofNat 8
  · rw [if_pos h3]; exact Or.inl ⟨_, rfl⟩
  rw [if_neg h3]
  by_cases h4 : c = Char.ofNat 12
  · rw [if_pos h4]; exact Or.inl ⟨_, rfl⟩
  rw [if_neg h4]
  by_cases h5 : c = '\n'
  · rw [if_pos h5]; exact Or.inl ⟨_, rfl⟩
  rw [if_neg h5]
  by_cases h6 : c = Char.ofNat 13
  · rw [if_pos h6]; exact Or.inl ⟨_, rfl⟩
  rw [if_neg h6]
  by_cases h7 : c = '\t'
  · rw [if_pos h7]; exact Or.inl ⟨_, rfl⟩
  rw [if_neg h7]
  by_cases h8 : 0x20 ≤ c.toNat ∧ c.toNat ≤ 0x7e
  · rw [if_pos h8]; exact Or.inr ⟨rfl, h1, h2⟩
  rw [if_neg h8]
  by_cases h9 : c.toNat < 0x10000
  · rw [if_pos h9]; exact Or.inl ⟨_, rfl⟩
  · rw [if_neg h9]; exact Or.inl ⟨_, rfl⟩

theorem parseStr_cons (c : Char) (fuel : Nat) (tail : List Char) :
    parseStr (fuel + 1) (escapeChar c ++ tail) =
      (parseStr fuel tail).map (fun p => (c :: p.1, p.2)) := by
  rcases escapeChar_shape c with ⟨t, hesc⟩ | ⟨hesc, hq, hb⟩
  · rw [hesc, List.cons_append, parseStr, if_neg (by decide), if_pos rfl,
      parseEsc_escapeChar hesc tail]
  · rw [hesc, List.singleton_append, parseStr, if_neg hq, if_neg hb]

theorem parseStr_escList (s rest : List Char) {fuel : Nat}
    (hf : s.length + 1 ≤ fuel) :
    parseStr fuel (escList s ++ ('"' :: rest)) = some (s, rest) := by
  induction s generalizing fuel with
  | nil =>
    rcases fuel with _ | fuel
    · omega
    · rw [escList, List.nil_append, parseStr, if_pos rfl]
  | cons c cs ih =>
    rcases fuel with _ | fuel
    · simp at hf
    · rw [escList, List.append_assoc, parseStr_cons c fuel,
        ih (by simpa using Nat.succ_le_succ_iff.mp hf)]
      rfl

/-! ## JSON documents

`resp.json()` yields nested dicts/lists/strings/numbers/booleans/None.
`JValue` models that document; `JObj` keeps members in insertion order,
as Python dicts do. -/

mutual
inductive JValue : Type where
  | null : JValue
  | bool (b : Bool) : JValue
  | num (m : Int) (e : Nat) : JValue
  | str (s : String) : JValue
  | arr (elems : JArr) : JValue
  | obj (members : JObj) : JValue
inductive JArr : Type where
  | nil : JArr
  | cons (hd : JValue) (tl : JArr) : JArr
inductive JObj : Type where
  | nil : JObj
  | cons (key : String) (val : JValue) (tl : JObj) : JObj
end

/-- Indent prefix at nesting level `lvl` for `indent=2`. -/
def indentC (lvl : Nat) : List Char := List.replicate (2 * lvl) ' '

mutual
/-- Characters `json.dump(v, f, indent=2)` writes for `v` at nesting
level `l`: scalars inline; non-empty containers opened with a newline,
each item on its own indented line, items separated by `,`, and the
closing bracket on its own line at the enclosing level. -/
def dumpsV : Nat → JValue → List Char
  | _, .null => ['n', 'u', 'l', 'l']
  | _, .bool b => if b then ['t', 'r', 'u', 'e'] else ['f', 'a', 'l', 's', 'e']
  | _, .num m e => renderNum m e
  | _, .str s => '"' :: (escList s.data ++ ['"'])
  | l, .arr a => dumpsArr l a
  | l, .obj o => dumpsObj l o
def dumpsArr : Nat → JArr → List Char
  | _, .nil => ['[', ']']
  | l, .cons h t =>
    '[' :: '\n' :: (indentC (l + 1) ++ (dumpsV (l + 1) h ++ elemsTail (l + 1) t))
def elemsTail : Nat → JArr → List Char
  | lvl, .nil => '\n' :: (indentC (lvl - 1) ++ [']'])
  | lvl, .cons h t =>
    ',' :: '\n' :: (indentC lvl ++ (dumpsV lvl h ++ elemsTail lvl t))
def dumpsObj : Nat → JObj → List Char
  | _, .nil => ['{', '}']
  | l, .cons k v t =>
    '{' :: '\n' :: (indentC (l + 1) ++
      (('"' :: (escList k.data ++ ('"' :: ':' :: ' ' :: dumpsV (l + 1) v))) ++
        membersTail (l + 1) t))
def membersTail : Nat → JObj → List Char
  | lvl, .nil => '\n' :: (indentC (lvl - 1) ++ ['}'])
  | lvl, .cons k v t =>
    ',' :: '\n' :: (indentC lvl ++
      (('"' :: (escList k.data ++ ('"' :: ':' :: ' ' :: dumpsV lvl v))) ++
        membersTail lvl t))
end

/-- One object member's text: quoted escaped key, `: `, then the value. -/
def memberDump (lvl : Nat) (k : String) (v : JValue) : List Char :=
  '"' :: (escList k.data ++ ('"' :: ':' :: ' ' :: dumpsV lvl v))

mutual
/-- Fuel needed by the decoder for one value (each decoder call consumes
one unit before recursing). -/
def costV : JValue → Nat
  | .null => 1
  | .bool _ => 1
  | .num _ _ => 1
  | .str s => s.data.length + 2
  | .arr a => 1 + costA a
  | .obj o => 1 + costO o
def costA : JArr → Nat
  | .nil => 0
  | .cons h t => 1 + costV h + costA t
def costO : JObj → Nat
  | .nil => 0
  | .cons k v t => 1 + (k.data.length + 1) + costV v + costO t
end

/-- Match an expected literal character sequence, returning the suffix. -/
def stripPre : List Char → List Char → Option (List Char)
  | [], cs => some cs
  | a :: w, c :: cs => if c = a then stripPre w cs else none
  | _ :: _, [] => none

mutual
/-- Decode one JSON value, dispatching on the first character, as
`json.loads` does: keyword literals, strings, containers, else a number. -/
def parseValue : Nat → List Char → Option (JValue × List Char)
  | 0, _ => none
  | fuel + 1, cs =>
    match cs with
    | [] => none
    | c :: rest =>
      if c = 'n' then
        match stripPre ['u', 'l', 'l'] rest with
        | some r => some (.null, r)
        | none => none
      else if c = 't' then
        match stripPre ['r', 'u', 'e'] rest with
        | some r => some (.bool true, r)
        | none => none
      else if c = 'f' then
        match stripPre ['a', 'l', 's', 'e'] rest with
        | some r => some (.bool false, r)
        | none => none
      else if c = '"' then
        (parseStr fuel rest).map (fun p => (.str (String.mk p.1), p.2))
      else if c = '[' then
        let r := skipWs rest
        if r.head? = some ']' then some (.arr .nil, r.tail)
        else (parseElems fuel r).map (fun p => (.arr p.1, p.2))
      else if c = '{' then
        let r := skipWs rest
        if r.head? = some '}' then some (.obj .nil, r.tail)
        else (parseMembers fuel r).map (fun p => (.obj p.1, p.2))
      else
        (parseNum (c :: rest)).map (fun p => (.num p.1.1 p.1.2, p.2))
/-- Decode the elements of a non-empty array up to and including the
closing bracket. -/
def parseElems : Nat → List Char → Option (JArr × List Char)
  | 0, _ => none
  | fuel + 1, cs =>
    (parseValue fuel cs).bind (fun p =>
      if (skipWs p.2).head? = some ',' then
        (parseElems fuel (skipWs (skipWs p.2).tail)).map
          (fun q => (.cons p.1 q.1, q.2))
      else if (skipWs p.2).head? = some ']' then
        some (.cons p.1 .nil, (skipWs p.2).tail)
      else none)
/-- Decode the members of a non-empty object up to and including the
closing brace. -/
def parseMembers : Nat → List Char → Option (JObj × List Char)
  | 0, _ => none
  | fuel + 1, cs =>
    match cs with
    | [] => none
    | c :: rest =>
      if c = '"' then
        (parseStr fuel rest).bind (fun p =>
          if (skipWs p.2).head? = some ':' then
            (parseValue fuel (skipWs (skipWs p.2).tail)).bind (fun q =>
              if (skipWs q.2).head? = some ',' then
                (parseMembers fuel (skipWs (skipWs q.2).tail)).map
                  (fun w => (.cons (String.mk p.1) q.1 w.1, w.2))
              else if (skipWs q.2).head? = some '}' then
                some (.cons (String.mk p.1) q.1 .nil, (skipWs q.2).tail)
              else none)
          else none)
      else none
end

/-! ## Round trip: helper lemmas -/

theorem isDigit_ne {c d : Char} (h : c.isDigit = true) (hd : d.isDigit = false) :
    c ≠ d := by
  intro e; subst e; rw [h] at hd; cases hd

theorem renderNum_head (m : Int) (e : Nat) :
    ∃ c t, renderNum m e = c :: t ∧ (c = '-' ∨ c.isDigit = true) := by
  rw [renderNum]
  by_cases hm : m < 0
  · rw [if_pos hm]
    exact ⟨'-', _, rfl, Or.inl rfl⟩
  · rw [if_neg hm]
    rcases hne : natToDigits (m.natAbs / 10 ^ e) with _ | ⟨d, ds⟩
    · exact absurd hne (natToDigits_ne_nil _)
    · refine ⟨d, ds ++ (if e = 0 then [] else
        '.' :: padDigits e (m.natAbs % 10 ^ e)), ?_, Or.inr ?_⟩
      · simp
      · exact natToDigits_all_digits _ d (by rw [hne]; simp)

/-- First character emitted for any value: never whitespace, never a
closing bracket, and enough to route the decoder's dispatch. -/
theorem dumpsV_head (l : Nat) (v : JValue) :
    ∃ c t, dumpsV l v = c :: t ∧ isWsChar c = false ∧ c ≠ ']' ∧ c ≠ '}' := by
  cases v with
  | null => exact ⟨'n', _, rfl, by decide, by decide, by decide⟩
  | bool b =>
    cases b with
    | true =>
      exact ⟨'t', ['r', 'u', 'e'], rfl, by decide, by decide, by decide⟩
    | false =>
      exact ⟨'f', ['a', 'l', 's', 'e'], rfl, by decide, by decide, by decide⟩
  | num m e =>
    obtain ⟨c, t, hct, hc⟩ := renderNum_head m e
    refine ⟨c, t, by rw [dumpsV, hct], ?_, ?_, ?_⟩
    · rcases hc with hc | hc
      · subst hc; decide
      · by_contra hw
        have : isWsChar c = true := by
          revert hw; cases hv : isWsChar c <;> simp
        rw [isWsChar] at this
        simp only [Bool.or_eq_true, decide_eq_true_eq] at this
        rcases this with ((h | h) | h) | h <;>
          (subst h; exact absurd hc (by decide))
    · rcases hc with hc | hc
      · subst hc; decide
      · exact isDigit_ne hc (by decide)
    · rcases hc with hc | hc
      · subst hc; decide
      · exact isDigit_ne hc (by decide)
  | str s => exact ⟨'"', _, rfl, by decide, by decide, by decide⟩
  | arr a =>
    cases a with
    | nil => exact ⟨'[', _, rfl, by decide, by decide, by decide⟩
    | cons h t => exact ⟨'[', _, rfl, by decide, by decide, by decide⟩
  | obj o =>
    cases o with
    | nil => exact ⟨'{', _, rfl, by decide, by decide, by decide⟩
    | cons k v t => exact ⟨'{', _, rfl, by decide, by decide, by decide⟩

/-- Skipping the newline-plus-indent the printer places before an item
lands exactly on the item's first character. -/
theorem skipWs_to_dumps (k l : Nat) (v : JValue) (suffix : List Char) :
    skipWs ('\n' :: (indentC k ++ (dumpsV l v ++ suffix))) =
      dumpsV l v ++ suffix := by
  obtain ⟨c, t, hct, hws, _, _⟩ := dumpsV_head l v
  rw [skipWs_cons_of_ws (by decide), indentC, skipWs_replicate_space, hct,
    List.cons_append, skipWs_cons_of_not_ws hws]

theorem skipWs_to_quote (k : Nat) (suffix : List Char) :
    skipWs ('\n' :: (indentC k ++ ('"' :: suffix))) = '"' :: suffix := by
  rw [skipWs_cons_of_ws (by decide), indentC, skipWs_replicate_space,
    skipWs_cons_of_not_ws (by decide)]

theorem parseValue_null (fuel : Nat) (rest : List Char) :
    parseValue (fuel + 1) ('n' :: 'u' :: 'l' :: 'l' :: rest) =
      some (.null, rest) := rfl

theorem parseValue_true (fuel : Nat) (rest : List Char) :
    parseValue (fuel + 1) ('t' :: 'r' :: 'u' :: 'e' :: rest) =
      some (.bool true, rest) := rfl

theorem parseValue_false (fuel : Nat) (rest : List Char) :
    parseValue (fuel + 1) ('f' :: 'a' :: 'l' :: 's' :: 'e' :: rest) =
      some (.bool false, rest) := rfl

theorem parseValue_quote (fuel : Nat) (rest : List Char) :
    parseValue (fuel + 1) ('"' :: rest) =
      (parseStr fuel rest).map (fun p => (.str (String.mk p.1), p.2)) := rfl

theorem parseValue_bracket (fuel : Nat) (rest : List Char) :
    parseValue (fuel + 1) ('[' :: rest) =
      (if (skipWs rest).head? = some ']' then
        some (.arr .nil, (skipWs rest).tail)
      else (parseElems fuel (skipWs rest)).map (fun p => (.arr p.1, p.2))) := rfl

theorem parseValue_brace (fuel : Nat) (rest : List Char) :
    parseValue (fuel + 1) ('{' :: rest) =
      (if (skipWs rest).head? = some '}' then
        some (.obj .nil, (skipWs rest).tail)
      else (parseMembers fuel (skipWs rest)).map (fun p => (.obj p.1, p.2))) := rfl

theorem parseValue_num (fuel : Nat) {c : Char} (h1 : c ≠ 'n') (h2 : c ≠ 't')
    (h3 : c ≠ 'f') (h4 : c ≠ '"') (h5 : c ≠ '[') (h6 : c ≠ '{')
    (rest : List Char) :
    parseValue (fuel + 1) (c :: rest) =
      (parseNum (c :: rest)).map (fun p => (.num p.1.1 p.1.2, p.2)) := by
  rw [parseValue]
  simp only [if_neg h1, if_neg h2, if_neg h3, if_neg h4, if_neg h5, if_neg h6]

theorem skipWs_space_dumps (l : Nat) (v : JValue) (suffix : List Char) :
    skipWs (' ' :: (dumpsV l v ++ suffix)) = dumpsV l v ++ suffix := by
  obtain ⟨c, t, hct, hws, _, _⟩ := dumpsV_head l v
  rw [skipWs_cons_of_ws (by decide), hct, List.cons_append,
    skipWs_cons_of_not_ws hws]

/-- The six dispatch characters a number token can never start with. -/
theorem numHead_ne {c : Char} (hc : c = '-' ∨ c.isDigit = true) :
    c ≠ 'n' ∧ c ≠ 't' ∧ c ≠ 'f' ∧ c ≠ '"' ∧ c ≠ '[' ∧ c ≠ '{' := by
  rcases hc with hc | hc
  · subst hc; refine ⟨by decide, by decide, by decide, by decide, by decide,
      by decide⟩
  · exact ⟨isDigit_ne hc (by decide), isDigit_ne hc (by decide),
      isDigit_ne hc (by decide), isDigit_ne hc (by decide),
      isDigit_ne hc (by decide), isDigit_ne hc (by decide)⟩


theorem parseMembers_quote (fuel : Nat) (rest : List Char) :
    parseMembers (fuel + 1) ('"' :: rest) =
      (parseStr fuel rest).bind (fun p =>
        if (skipWs p.2).head? = some ':' then
          (parseValue fuel (skipWs (skipWs p.2).tail)).bind (fun q =>
            if (skipWs q.2).head? = some ',' then
              (parseMembers fuel (skipWs (skipWs q.2).tail)).map
                (fun w => (.cons (String.mk p.1) q.1 w.1, w.2))
            else if (skipWs q.2).head? = some '}' then
              some (.cons (String.mk p.1) q.1 .nil, (skipWs q.2).tail)
            else none)
        else none) := rfl

theorem option_bind_some {α β : Type} (a : α) (f : α → Option β) :
    (some a).bind f = f a := rfl

mutual

/-- Decoding the printed form of any value, at any level and with enough
fuel, returns the value and leaves the separator suffix untouched. -/
theorem parseValue_dumpsV (v : JValue) (l fuel : Nat) (rest : List Char)
    (hf : costV v ≤ fuel) (hsep : IsSep rest) :
    parseValue fuel (dumpsV l v ++ rest) = some (v, rest) := by
  match v with
  | .null =>
    rcases fuel with _ | f
    · rw [costV] at hf; omega
    · exact parseValue_null f rest
  | .bool true =>
    rcases fuel with _ | f
    · rw [costV] at hf; omega
    · exact parseValue_true f rest
  | .bool false =>
    rcases fuel with _ | f
    · rw [costV] at hf; omega
    · exact parseValue_false f rest
  | .num m e =>
    rcases fuel with _ | f
    · rw [costV] at hf; omega
    · obtain ⟨c, t, hct, hc⟩ := renderNum_head m e
      obtain ⟨h1, h2, h3, h4, h5, h6⟩ := numHead_ne hc
      have hdv : dumpsV l (.num m e) = renderNum m e := rfl
      rw [hdv, hct, List.cons_append, parseValue_num f h1 h2 h3 h4 h5 h6,
        ← List.cons_append, ← hct, parseNum_renderNum m e hsep]
      rfl
  | .str s =>
    rcases fuel with _ | f
    · rw [costV] at hf; omega
    · have hdv : dumpsV l (.str s) ++ rest =
          '"' :: (escList s.data ++ ('"' :: rest)) := by
        show ('"' :: (escList s.data ++ ['"'])) ++ rest = _
        simp
      rw [hdv, parseValue_quote,
        parseStr_escList s.data rest (by rw [costV] at hf; omega)]
      rfl
  | .arr .nil =>
    rcases fuel with _ | f
    · rw [costV] at hf; omega
    · have hdv : dumpsV l (.arr .nil) ++ rest = '[' :: (']' :: rest) := rfl
      rw [hdv, parseValue_bracket,
        skipWs_cons_of_not_ws (c := ']') (by decide)]
      rw [List.head?_cons, if_pos rfl]
      rfl
  | .arr (.cons h t) =>
    rcases fuel with _ | f
    · rw [costV] at hf; omega
    · have hdv : dumpsV l (.arr (.cons h t)) ++ rest =
          '[' :: ('\n' :: (indentC (l + 1) ++
            (dumpsV (l + 1) h ++ (elemsTail (l + 1) t ++ rest)))) := by
        show ('[' :: '\n' :: (indentC (l + 1) ++
          (dumpsV (l + 1) h ++ elemsTail (l + 1) t))) ++ rest = _
        simp
      rw [hdv, parseValue_bracket, skipWs_to_dumps]
      obtain ⟨c, t', hct, _, hne1, _⟩ := dumpsV_head (l + 1) h
      rw [if_neg (by rw [hct, List.cons_append]; simp [hne1])]
      rw [parseElems_elems h t (l + 1) f rest
        (by rw [costV] at hf; omega) hsep]
      rfl
  | .obj .nil =>
    rcases fuel with _ | f
    · rw [costV] at hf; omega
    · have hdv : dumpsV l (.obj .nil) ++ rest = '{' :: ('}' :: rest) := rfl
      rw [hdv, parseValue_brace,
        skipWs_cons_of_not_ws (c := '}') (by decide)]
      rw [List.head?_cons, if_pos rfl]
      rfl
  | .obj (.cons k v t) =>
    rcases fuel with _ | f
    · rw [costV] at hf; omega
    · have hdv : dumpsV l (.obj (.cons k v t)) ++ rest =
          '{' :: ('\n' :: (indentC (l + 1) ++
            (memberDump (l + 1) k v ++ (membersTail (l + 1) t ++ rest)))) := by
        show ('{' :: '\n' :: (indentC (l + 1) ++
          (('"' :: (escList k.data ++ ('"' :: ':' :: ' ' ::
            dumpsV (l + 1) v))) ++ membersTail (l + 1) t))) ++ rest = _
        simp [memberDump]
      rw [hdv, parseValue_brace]
      have hskip : skipWs ('\n' :: (indentC (l + 1) ++
          (memberDump (l + 1) k v ++ (membersTail (l + 1) t ++ rest)))) =
          memberDump (l + 1) k v ++ (membersTail (l + 1) t ++ rest) := by
        rw [skipWs_cons_of_ws (by decide), indentC, skipWs_replicate_space,
          memberDump, List.cons_append,
          skipWs_cons_of_not_ws (c := '"') (by decide)]
      rw [hskip]
      rw [if_neg (by rw [memberDump, List.cons_append]; simp)]
      rw [parseMembers_members k v t (l + 1) f rest
        (by rw [costV] at hf; omega) hsep]
      rfl
termination_by sizeOf v

/-- Decoding the printed elements of a non-empty array consumes through
the closing bracket. -/
theorem parseElems_elems (h : JValue) (t : JArr) (lvl fuel : Nat)
    (rest : List Char) (hf : costA (.cons h t) ≤ fuel) (hsep : IsSep rest) :
    parseElems fuel (dumpsV lvl h ++ (elemsTail lvl t ++ rest)) =
      some (.cons h t, rest) := by
  rcases fuel with _ | f
  · rw [costA] at hf; omega
  · have hsepIn : IsSep (elemsTail lvl t ++ rest) := by
      cases t with
      | nil =>
        right; right
        exact ⟨_, by rw [elemsTail, List.cons_append]⟩
      | cons h2 t2 =>
        right; left
        exact ⟨_, by rw [elemsTail, List.cons_append]⟩
    rw [parseElems, parseValue_dumpsV h lvl f _
      (by rw [costA] at hf; omega) hsepIn]
    simp only [option_bind_some]
    cases t with
    | nil =>
      have hsk : skipWs (elemsTail lvl .nil ++ rest) = ']' :: rest := by
        have h0 : elemsTail lvl .nil ++ rest =
            '\n' :: (indentC (lvl - 1) ++ (']' :: rest)) := by
          rw [elemsTail]; simp
        rw [h0, skipWs_cons_of_ws (by decide), indentC,
          skipWs_replicate_space, skipWs_cons_of_not_ws (c := ']') (by decide)]
      rw [hsk, List.head?_cons, if_neg (by decide), if_pos rfl]
      rfl
    | cons h2 t2 =>
      have hsk : skipWs (elemsTail lvl (.cons h2 t2) ++ rest) =
          ',' :: ('\n' :: (indentC lvl ++
            (dumpsV lvl h2 ++ (elemsTail lvl t2 ++ rest)))) := by
        have h0 : elemsTail lvl (.cons h2 t2) ++ rest =
            ',' :: ('\n' :: (indentC lvl ++
              (dumpsV lvl h2 ++ (elemsTail lvl t2 ++ rest)))) := by
          rw [elemsTail]; simp
        rw [h0, skipWs_cons_of_not_ws (c := ',') (by decide)]
      rw [hsk, List.head?_cons, if_pos rfl, List.tail_cons, skipWs_to_dumps,
        parseElems_elems h2 t2 lvl f rest
          (by rw [costA] at hf; omega) hsep]
      rfl
termination_by 1 + sizeOf h + sizeOf t

/-- Decoding the printed members of a non-empty object consumes through
the closing brace. -/
theorem parseMembers_members (k : String) (v : JValue) (t : JObj)
    (lvl fuel : Nat) (rest : List Char)
    (hf : costO (.cons k v t) ≤ fuel) (hsep : IsSep rest) :
    parseMembers fuel (memberDump lvl k v ++ (membersTail lvl t ++ rest)) =
      some (.cons k v t, rest) := by
  rcases fuel with _ | f
  · rw [costO] at hf; omega
  · have hsepIn : IsSep (membersTail lvl t ++ rest) := by
      cases t with
      | nil =>
        right; right
        exact ⟨_, by rw [membersTail, List.cons_append]⟩
      | cons k2 v2 t2 =>
        right; left
        exact ⟨_, by rw [membersTail, List.cons_append]⟩
    have hmem : memberDump lvl k v ++ (membersTail lvl t ++ rest) =
        '"' :: (escList k.data ++ ('"' :: (':' :: (' ' ::
          (dumpsV lvl v ++ (membersTail lvl t ++ rest)))))) := by
      rw [memberDump]; simp
    rw [hmem, parseMembers_quote,
      parseStr_escList k.data _ (by rw [costO] at hf; omega)]
    simp only [option_bind_some]
    rw [skipWs_cons_of_not_ws (c := ':') (by decide), List.head?_cons,
      if_pos rfl, List.tail_cons, skipWs_space_dumps,
      parseValue_dumpsV v lvl f _ (by rw [costO] at hf; omega) hsepIn]
    simp only [option_bind_some]
    cases t with
    | nil =>
      have hsk : skipWs (membersTail lvl .nil ++ rest) = '}' :: rest := by
        have h0 : membersTail lvl .nil ++ rest =
            '\n' :: (indentC (lvl - 1) ++ ('}' :: rest)) := by
          rw [membersTail]; simp
        rw [h0, skipWs_cons_of_ws (by decide), indentC,
          skipWs_replicate_space, skipWs_cons_of_not_ws (c := '}') (by decide)]
      rw [hsk, List.head?_cons, if_neg (by decide), if_pos rfl]
      rfl
    | cons k2 v2 t2 =>
      have hsk : skipWs (membersTail lvl (.cons k2 v2 t2) ++ rest) =
          ',' :: ('\n' :: (indentC lvl ++
            (memberDump lvl k2 v2 ++ (membersTail lvl t2 ++ rest)))) := by
        have h0 : membersTail lvl (.cons k2 v2 t2) ++ rest =
            ',' :: ('\n' :: (indentC lvl ++
              (memberDump lvl k2 v2 ++ (membersTail lvl t2 ++ rest)))) := by
          rw [membersTail, memberDump]; simp
        rw [h0, skipWs_cons_of_not_ws (c := ',') (by decide)]
      have hskip2 : skipWs ('\n' :: (indentC lvl ++
          (memberDump lvl k2 v2 ++ (membersTail lvl t2 ++ rest)))) =
          memberDump lvl k2 v2 ++ (membersTail lvl t2 ++ rest) := by
        rw [skipWs_cons_of_ws (by decide), indentC, skipWs_replicate_space,
          memberDump, List.cons_append,
          skipWs_cons_of_not_ws (c := '"') (by decide)]
      rw [hsk, List.head?_cons, if_pos rfl, List.tail_cons, hskip2,
        parseMembers_members k2 v2 t2 lvl f rest
          (by rw [costO] at hf; omega) hsep]
      rfl
termination_by 1 + sizeOf v + sizeOf t

end

theorem escapeChar_ne_nil (c : Char) : escapeChar c ≠ [] := by
  rcases escapeChar_shape c with ⟨t, hesc⟩ | ⟨hesc, _, _⟩ <;> simp [hesc]

theorem escList_len_ge (cs : List Char) : cs.length ≤ (escList cs).length := by
  induction cs with
  | nil => simp [escList]
  | cons c t ih =>
    rw [escList, List.length_append]
    have h1 : 1 ≤ (escapeChar c).length :=
      List.length_pos.mpr (escapeChar_ne_nil c)
    simp only [List.length_cons]
    omega

mutual

/-- The decoder's fuel need never exceeds the printed length plus one. -/
theorem costV_le (v : JValue) (l : Nat) :
    costV v ≤ (dumpsV l v).length + 1 := by
  match v with
  | .null => rw [costV]; simp [dumpsV]
  | .bool b => rw [costV]; cases b <;> simp [dumpsV]
  | .num m e => rw [costV]; omega
  | .str s =>
    rw [costV]
    have h1 := escList_len_ge s.data
    have h2 : (dumpsV l (.str s)).length =
        (escList s.data).length + 2 := by
      show ('"' :: (escList s.data ++ ['"'])).length = _
      simp
    omega
  | .arr .nil => rw [costV, costA]; simp [dumpsV, dumpsArr]
  | .arr (.cons h t) =>
    rw [costV]
    have h1 := costA_le h t (l + 1)
    have h2 : (dumpsV l (.arr (.cons h t))).length =
        2 + (indentC (l + 1)).length + (dumpsV (l + 1) h).length +
          (elemsTail (l + 1) t).length := by
      show ('[' :: '\n' :: (indentC (l + 1) ++
        (dumpsV (l + 1) h ++ elemsTail (l + 1) t))).length = _
      simp
      omega
    omega
  | .obj .nil => rw [costV, costO]; simp [dumpsV, dumpsObj]
  | .obj (.cons k v t) =>
    rw [costV]
    have h1 := costO_le k v t (l + 1)
    have h2 : (dumpsV l (.obj (.cons k v t))).length =
        2 + (indentC (l + 1)).length + (memberDump (l + 1) k v).length +
          (membersTail (l + 1) t).length := by
      show ('{' :: '\n' :: (indentC (l + 1) ++
        (('"' :: (escList k.data ++ ('"' :: ':' :: ' ' ::
          dumpsV (l + 1) v))) ++ membersTail (l + 1) t))).length = _
      simp [memberDump]
      omega
    omega
termination_by sizeOf v

theorem costA_le (h : JValue) (t : JArr) (lvl : Nat) :
    costA (.cons h t) ≤ (dumpsV lvl h).length + (elemsTail lvl t).length := by
  rw [costA]
  have hV := costV_le h lvl
  match t with
  | .nil =>
    rw [costA]
    have h2 : 2 ≤ (elemsTail lvl .nil).length := by
      rw [elemsTail]; simp
    omega
  | .cons h2 t2 =>
    have hA := costA_le h2 t2 lvl
    rw [costA] at hA ⊢
    have h2 : (elemsTail lvl (.cons h2 t2)).length =
        2 + (indentC lvl).length + (dumpsV lvl h2).length +
          (elemsTail lvl t2).length := by
      rw [elemsTail]; simp; omega
    omega
termination_by 1 + sizeOf h + sizeOf t

theorem costO_le (k : String) (v : JValue) (t : JObj) (lvl : Nat) :
    costO (.cons k v t) ≤
      (memberDump lvl k v).length + (membersTail lvl t).length := by
  rw [costO]
  have hV := costV_le v lvl
  have hK := escList_len_ge k.data
  have hM : (memberDump lvl k v).length =
      (escList k.data).length + 4 + (dumpsV lvl v).length := by
    rw [memberDump]; simp; omega
  match t with
  | .nil =>
    rw [costO]
    have h2 : 2 ≤ (membersTail lvl .nil).length := by
      rw [membersTail]; simp
    omega
  | .cons k2 v2 t2 =>
    have hO := costO_le k2 v2 t2 lvl
    rw [costO] at hO ⊢
    have h2 : (membersTail lvl (.cons k2 v2 t2)).length =
        2 + (indentC lvl).length + (memberDump lvl k2 v2).length +
          (membersTail lvl t2).length := by
      rw [membersTail, memberDump]; simp; omega
    omega
termination_by 1 + sizeOf v + sizeOf t

end

/-- The text `json.dump(v, f, indent=2)` writes for the whole document. -/
def dumps (v : JValue) : String := String.mk (dumpsV 0 v)

/-- `json.loads`: decode one value, allowing surrounding whitespace, and
require the input to be fully consumed. -/
def loads (s : String) : Option JValue :=
  (parseValue (s.data.length + 1) (skipWs s.data)).bind (fun p =>
    if skipWs p.2 = [] then some p.1 else none)

/-- Serializing any document and decoding the result returns the same
document (deep equality). -/
theorem loads_dumps (v : JValue) : loads (dumps v) = some v := by
  obtain ⟨c, t, hct, hws, _, _⟩ := dumpsV_head 0 v
  have hskip : skipWs (dumpsV 0 v) = dumpsV 0 v := by
    rw [hct, skipWs_cons_of_not_ws hws]
  have hfuel : costV v ≤ (dumpsV 0 v).length + 1 := costV_le v 0
  have hp := parseValue_dumpsV v 0 ((dumpsV 0 v).length + 1) [] hfuel
    (Or.inl rfl)
  rw [List.append_nil] at hp
  show (parseValue ((dumpsV 0 v).length + 1)
    (skipWs (dumpsV 0 v))).bind (fun p =>
      if skipWs p.2 = [] then some p.1 else none) = some v
  rw [hskip, hp, option_bind_some]
  simp [skipWs]

/-! ## Timestamps

`datetime.fromisoformat` on the grammar `YYYY-MM-DD[<sep>HH:MM[:SS]]`
(the subset every supported Python version accepts; any single separator
character is allowed, as Python does).  Calendar validity (month range,
day-of-month, leap years) is checked as Python does. -/

structure DateTime where
  year : Nat
  month : Nat
  day : Nat
  hour : Nat
  minute : Nat
  second : Nat

/-- Mixed-radix encoding of the six fields: order-isomorphic to Python's
field-lexicographic `datetime` comparison on calendar-valid values. -/
def natKey (d : DateTime) : Nat :=
  ((((d.year * 13 + d.month) * 32 + d.day) * 24 + d.hour) * 60 + d.minute)
    * 60 + d.second

def dv2 (a b : Char) : Option Nat :=
  if a.isDigit ∧ b.isDigit then some (digitVal a * 10 + digitVal b) else none

def dv4 (a b c d : Char) : Option Nat :=
  if a.isDigit ∧ b.isDigit ∧ c.isDigit ∧ d.isDigit then
    some (((digitVal a * 10 + digitVal b) * 10 + digitVal c) * 10 +
      digitVal d)
  else none

def isLeap (y : Nat) : Bool :=
  y % 4 == 0 && (y % 100 != 0 || y % 400 == 0)

def daysInMonth (y mo : Nat) : Nat :=
  if mo = 2 then (if isLeap y then 29 else 28)
  else if mo = 4 ∨ mo = 6 ∨ mo = 9 ∨ mo = 11 then 30
  else 31

def parseHM (cs : List Char) : Option (Nat × Nat × Nat) :=
  match cs with
  | [a, b, ':', c, d] =>
    match dv2 a b, dv2 c d with
    | some hh, some mm =>
      if hh ≤ 23 ∧ mm ≤ 59 then some (hh, mm, 0) else none
    | _, _ => none
  | [a, b, ':', c, d, ':', e, f] =>
    match dv2 a b, dv2 c d, dv2 e f with
    | some hh, some mm, some ss =>
      if hh ≤ 23 ∧ mm ≤ 59 ∧ ss ≤ 59 then some (hh, mm, ss) else none
    | _, _, _ => none
  | _ => none

def fromisoformat (s : String) : Option DateTime :=
  match s.data with
  | y1 :: y2 :: y3 :: y4 :: s1 :: m1 :: m2 :: s2 :: d1 :: d2 :: rest =>
    if s1 = '-' ∧ s2 = '-' then
      match dv4 y1 y2 y3 y4, dv2 m1 m2, dv2 d1 d2 with
      | some y, some mo, some dy =>
        if 1 ≤ y ∧ 1 ≤ mo ∧ mo ≤ 12 ∧ 1 ≤ dy ∧ dy ≤ daysInMonth y mo then
          match rest with
          | [] => some ⟨y, mo, dy, 0, 0, 0⟩
          | _ :: timecs =>
            match parseHM timecs with
            | some hms => some ⟨y, mo, dy, hms.1, hms.2.1, hms.2.2⟩
            | none => none
        else none
      | _, _, _ => none
    else none
  | _ => none

/-! ## Numeric coercion and rounding

`float(x)` and `round(x, 2)` over exact rationals.  Machine floats are
not embedded; the claims never probe a binary-representability or
half-way boundary, and `round`'s bankers rounding is modelled exactly on
the rational value. -/

/-- `float(x)`: numbers and booleans coerce; a string coerces when it is
a decimal numeral (the forms the pipeline's data can carry); `None`,
lists and dicts raise `TypeError`. -/
def coerceFloat (v : JValue) : Except Unit Rat :=
  match v with
  | .num m e => .ok ((m : Rat) / ((10 : Rat) ^ e))
  | .bool b => .ok (if b then 1 else 0)
  | .str s =>
    match parseNum s.data with
    | some ((m, e), []) => .ok ((m : Rat) / ((10 : Rat) ^ e))
    | _ => .error ()
  | _ => .error ()

/-- Round half to even, as Python's `round` does. -/
def roundHalfEven (q : Rat) : Int :=
  let f : Int := ⌊q⌋
  let r : Rat := q - (f : Rat)
  if r < 1 / 2 then f
  else if 1 / 2 < r then f + 1
  else if f % 2 = 0 then f else f + 1

/-- `round(x, 2)`. -/
def round2 (q : Rat) : Rat := ((roundHalfEven (q * 100) : Rat)) / 100

/-! ## Rows and the extraction loop -/

/-- A row's timestamp: either a parsed calendar timestamp, or the raw
value retained by the `except` fallback when parsing fails. -/
inductive TsVal : Type where
  | dt (d : DateTime) : TsVal
  | raw (v : JValue) : TsVal

/-- `try: ts = datetime.fromisoformat(times[i]) except Exception: ts = times[i]` —
any failure (a non-string entry included) retains the original value. -/
def tsOf (v : JValue) : TsVal :=
  match v with
  | .str s =>
    match fromisoformat s with
    | some d => .dt d
    | none => .raw (.str s)
  | _ => .raw v

structure Row where
  timestamp : TsVal
  temperature_c : Rat
  precipitation_mm : Rat
  wind_speed_mps : Rat

inductive BuildErr : Type where
  | indexError : BuildErr
  | coercionError : BuildErr
deriving DecidableEq

/-- The loop `for i in range(len(times))`: each iteration reads
`times[i]` (timestamp fallback never fails), then for each of the three
value sequences first indexes (`IndexError` when too short) and then
coerces (`float` failure is not caught).  Recursing on the tails mirrors
the index walk. -/
def buildRows : List JValue → List JValue → List JValue → List JValue →
    Except BuildErr (List Row)
  | [], _, _, _ => .ok []
  | tm :: tms, temps, precips, winds =>
    match temps with
    | [] => .error .indexError
    | tv :: temps' =>
      match coerceFloat tv with
      | .error _ => .error .coercionError
      | .ok tq =>
        match precips with
        | [] => .error .indexError
        | pv :: precips' =>
          match coerceFloat pv with
          | .error _ => .error .coercionError
          | .ok pq =>
            match winds with
            | [] => .error .indexError
            | wv :: winds' =>
              match coerceFloat wv with
              | .error _ => .error .coercionError
              | .ok wq =>
                match buildRows tms temps' precips' winds' with
                | .error e => .error e
                | .ok rest =>
                  .ok ({ timestamp := tsOf tm,
                         temperature_c := round2 tq,
                         precipitation_mm := round2 pq,
                         wind_speed_mps := round2 wq } :: rest)

/-! ## Document access and the transform -/

def JArr.toList : JArr → List JValue
  | .nil => []
  | .cons h t => h :: JArr.toList t

/-- First binding for a key.  (Decoded Python documents cannot carry
duplicate keys — `json.loads` keeps only the last — so on the image of
`loads∘dumps` of dict-like documents first and last coincide.) -/
def jLookup : JObj → String → Option JValue
  | .nil, _ => none
  | .cons k v t, key => if k = key then some v else jLookup t key

/-- `v.get(key, dflt)`: attribute error unless `v` is a dict. -/
def pyGet (v : JValue) (key : String) (dflt : JValue) : Except Unit JValue :=
  match v with
  | .obj o => .ok ((jLookup o key).getD dflt)
  | _ => .error ()

inductive TErr : Type where
  | attrError : TErr
  | typeError : TErr
  | buildErr (e : BuildErr) : TErr
deriving DecidableEq

/-- A sequence value for the loop; Python would duck-type other iterables
(e.g. iterate a string characterwise), but the claims only quantify over
sequence-valued or absent keys, so non-sequences are modelled as the
type errors their use in the loop would raise. -/
def asList (v : JValue) : Except Unit (List JValue) :=
  match v with
  | .arr a => .ok a.toList
  | _ => .error ()

/-- The Extractor/Transformer: `raw.get("hourly", {})`, the four
`hourly.get(_, [])` reads, then the row-building loop. -/
def transform (raw : JValue) : Except TErr (List Row) :=
  match pyGet raw "hourly" (.obj .nil) with
  | .error _ => .error .attrError
  | .ok hourly =>
    match pyGet hourly "time" (.arr .nil),
        pyGet hourly "temperature_2m" (.arr .nil),
        pyGet hourly "precipitation" (.arr .nil),
        pyGet hourly "wind_speed_10m" (.arr .nil) with
    | .ok timesV, .ok tempsV, .ok precipV, .ok windV =>
      match asList timesV, asList tempsV, asList precipV, asList windV with
      | .ok times, .ok temps, .ok precips, .ok winds =>
        match buildRows times temps precips winds with
        | .ok rows => .ok rows
        | .error e => .error (.buildErr e)
      | _, _, _, _ => .error .typeError
    | _, _, _, _ => .error .attrError

/-! ## dropna and sort_values -/

/-- `df.dropna()`: in the model every built row has all four fields and
no NaN can arise (coercion yields exact rationals), so no row is
dropped — faithful on the model's domain. -/
def dropna (rows : List Row) : List Row := rows

def dtKey (r : Row) : Nat :=
  match r.timestamp with
  | .dt d => natKey d
  | .raw _ => 0

def strKey (r : Row) : String :=
  match r.timestamp with
  | .raw (.str s) => s
  | _ => ""

def tsIsDt (r : Row) : Bool :=
  match r.timestamp with
  | .dt _ => true
  | _ => false

def tsIsStr (r : Row) : Bool :=
  match r.timestamp with
  | .raw (.str _) => true
  | _ => false

def dtRowLe (a b : Row) : Prop := dtKey a ≤ dtKey b

instance : DecidableRel dtRowLe := fun a b => Nat.decLe _ _

def strRowLe (a b : Row) : Prop := strKey a ≤ strKey b

instance : DecidableRel strRowLe := fun a b =>
  inferInstanceAs (Decidable (strKey a ≤ strKey b))

inductive SortErr : Type where
  | keyError : SortErr
  | typeError : SortErr
deriving DecidableEq

/-- `df.sort_values("timestamp")`.  With zero rows the frame has no
columns and pandas raises `KeyError: 'timestamp'`.  With one row no
comparison happens.  Otherwise the column sorts when the keys are
mutually comparable — all parsed datetimes, or all fallback strings —
and raises `TypeError` on the first datetime-vs-str comparison of a
mixed column.  (The model sorts only these two homogeneous shapes; no
claim exercises other element types at length ≥ 2.)  Tie order is not
specified by the source (numpy quicksort is unstable); the model uses
insertion sort, and no claim depends on tie order. -/
def sortRows (rows : List Row) : Except SortErr (List Row) :=
  if rows.isEmpty then .error .keyError
  else if rows.length = 1 then .ok rows
  else if rows.all tsIsDt then .ok (List.insertionSort dtRowLe rows)
  else if rows.all tsIsStr then .ok (List.insertionSort strRowLe rows)
  else .error .typeError

/-! ## CSV output and the run -/

def pad2S (n : Nat) : String := if n < 10 then "0" ++ toString n else toString n

def pad4S (n : Nat) : String :=
  if n < 10 then "000" ++ toString n
  else if n < 100 then "00" ++ toString n
  else if n < 1000 then "0" ++ toString n
  else toString n

/-- `str(...)` of a cell's timestamp: `str(datetime)` for parsed values,
the original string for the fallback. -/
def renderTs : TsVal → String
  | .dt d =>
    pad4S d.year ++ "-" ++ pad2S d.month ++ "-" ++ pad2S d.day ++ " " ++
      pad2S d.hour ++ ":" ++ pad2S d.minute ++ ":" ++ pad2S d.second
  | .raw (.str s) => s
  | .raw v => String.mk (dumpsV 0 v)

/-- Deterministic decimal text of a two-decimal-place value (the exact
shortest-repr float formatting is outside the embedding; every claim
about the CSV needs only determinism and the header). -/
def renderFloat2 (q : Rat) : String :=
  let c : Int := roundHalfEven (q * 100)
  let a : Nat := c.natAbs
  let fr := a % 100
  let fs := if fr % 10 = 0 then toString (fr / 10) else pad2S fr
  (if c < 0 then "-" else "") ++ toString (a / 100) ++ "." ++ fs

def csvHeader : String := "timestamp,temperature_c,precipitation_mm,wind_speed_mps"

def renderRow (r : Row) : String :=
  renderTs r.timestamp ++ "," ++ renderFloat2 r.temperature_c ++ "," ++
    renderFloat2 r.precipitation_mm ++ "," ++ renderFloat2 r.wind_speed_mps

/-- `df.to_csv(path, index=False)`: header line then one line per row,
each line newline-terminated. -/
def toCsv (rows : List Row) : String :=
  String.intercalate "\n" (csvHeader :: rows.map renderRow) ++ "\n"

/-- The files the run touches, and whether the data directory exists. -/
structure FS where
  dirExists : Bool
  rawFile : Option String
  cleanFile : Option String

/-- Outcome of `requests.get(URL, timeout=30)`: a connection/timeout
failure, or a final response with its status code and body text. -/
inductive FetchResult : Type where
  | netFail : FetchResult
  | success (status : Nat) (body : String) : FetchResult

inductive PipeErr : Type where
  | netError : PipeErr
  | httpError : PipeErr
  | jsonError : PipeErr
  | transformError (e : TErr) : PipeErr
  | sortError (e : SortErr) : PipeErr
deriving DecidableEq

/-- `resp.raise_for_status()` raises exactly for 4xx/5xx codes. -/
def raiseForStatus (status : Nat) : Bool := 400 ≤ status ∧ status < 600

/-- One run of the script over a prior file-system state: create the data
directory, fetch, raise_for_status, decode JSON, write the raw file,
transform, dropna and sort, write the clean CSV.  An abort leaves every
later write unperformed. -/
def runPipeline (fs : FS) (f : FetchResult) : FS × Except PipeErr Unit :=
  let fs1 : FS := { fs with dirExists := true }
  match f with
  | .netFail => (fs1, .error .netError)
  | .success status body =>
    if raiseForStatus status then (fs1, .error .httpError)
    else
      match loads body with
      | none => (fs1, .error .jsonError)
      | some raw =>
        let fs2 : FS := { fs1 with rawFile := some (dumps raw) }
        match transform raw with
        | .error e => (fs2, .error (.transformError e))
        | .ok rows =>
          match sortRows (dropna rows) with
          | .error e => (fs2, .error (.sortError e))
          | .ok sorted =>
            ({ fs2 with cleanFile := some (toCsv sorted) }, .ok ())

/-! ## Characterizing the row loop -/

/-- Coerced value with a dummy default (used only under a hypothesis that
coercion succeeds). -/
def coerceD (v : JValue) : Rat :=
  match coerceFloat v with
  | .ok q => q
  | .error _ => 0

def CoercesOk (v : JValue) : Prop := ∃ q, coerceFloat v = .ok q

instance (v : JValue) : Decidable (CoercesOk v) := by
  rw [CoercesOk]
  match coerceFloat v with
  | .ok q => exact isTrue ⟨q, rfl⟩
  | .error e => exact isFalse (by rintro ⟨q, hq⟩; cases hq)

/-- The row the loop body builds at one index. -/
def mkRow (tm tv pv wv : JValue) : Row :=
  { timestamp := tsOf tm,
    temperature_c := round2 (coerceD tv),
    precipitation_mm := round2 (coerceD pv),
    wind_speed_mps := round2 (coerceD wv) }

theorem buildRows_cons_ok {tv pv wv : JValue} {tq pq wq : Rat}
    (h1 : coerceFloat tv = .ok tq) (h2 : coerceFloat pv = .ok pq)
    (h3 : coerceFloat wv = .ok wq)
    (tm : JValue) (tms tvs pvs wvs : List JValue) :
    buildRows (tm :: tms) (tv :: tvs) (pv :: pvs) (wv :: wvs) =
      match buildRows tms tvs pvs wvs with
      | .error e => .error e
      | .ok rest =>
          .ok ({ timestamp := tsOf tm,
                 temperature_c := round2 tq,
                 precipitation_mm := round2 pq,
                 wind_speed_mps := round2 wq } :: rest) := by
  simp only [buildRows, h1, h2, h3]

/-- When every value sequence covers the iteration bound `len(times)` and
every coerced value is numeric, the loop completes and produces exactly
one row per time entry, each row built from the entries at its index. -/
theorem buildRows_ok {times temps precips winds : List JValue}
    (h1 : times.length ≤ temps.length) (h2 : times.length ≤ precips.length)
    (h3 : times.length ≤ winds.length)
    (hc1 : ∀ v ∈ temps, CoercesOk v) (hc2 : ∀ v ∈ precips, CoercesOk v)
    (hc3 : ∀ v ∈ winds, CoercesOk v) :
    buildRows times temps precips winds =
      .ok ((List.range times.length).map (fun i =>
        mkRow (times.getD i .null) (temps.getD i .null)
          (precips.getD i .null) (winds.getD i .null))) := by
  induction times generalizing temps precips winds with
  | nil => rw [buildRows]; rfl
  | cons tm tms ih =>
    match temps, precips, winds with
    | [], _, _ => simp at h1
    | _ :: _, [], _ => simp at h2
    | _ :: _, _ :: _, [] => simp at h3
    | tv :: tvs, pv :: pvs, wv :: wvs =>
      obtain ⟨tq, htq⟩ := hc1 tv (by simp)
      obtain ⟨pq, hpq⟩ := hc2 pv (by simp)
      obtain ⟨wq, hwq⟩ := hc3 wv (by simp)
      rw [buildRows_cons_ok htq hpq hwq,
        ih (by simpa using h1) (by simpa using h2) (by simpa using h3)
          (fun v hv => hc1 v (by simp [hv]))
          (fun v hv => hc2 v (by simp [hv]))
          (fun v hv => hc3 v (by simp [hv]))]
      simp only [List.length_cons, List.range_succ_eq_map, List.map_cons,
        List.map_map]
      refine congrArg Except.ok (congrArg₂ List.cons ?_ ?_)
      · rw [mkRow]
        simp [coerceD, htq, hpq, hwq]
      · apply List.map_congr_left
        intro i hi
        simp [Function.comp]

/-- A value sequence shorter than the time sequence (an absent key gives
the empty sequence) makes the loop fail with `IndexError`, provided no
coercion failure preempts it. -/
theorem buildRows_indexError {times temps precips winds : List JValue}
    (hc1 : ∀ v ∈ temps, CoercesOk v) (hc2 : ∀ v ∈ precips, CoercesOk v)
    (hc3 : ∀ v ∈ winds, CoercesOk v)
    (hshort : temps.length < times.length ∨ precips.length < times.length ∨
      winds.length < times.length) :
    buildRows times temps precips winds = .error .indexError := by
  induction times generalizing temps precips winds with
  | nil => simp at hshort
  | cons tm tms ih =>
    match temps, precips, winds with
    | [], _, _ => rw [buildRows]
    | tv :: tvs, [], _ =>
      obtain ⟨tq, htq⟩ := hc1 tv (by simp)
      simp only [buildRows, htq]
    | tv :: tvs, pv :: pvs, [] =>
      obtain ⟨tq, htq⟩ := hc1 tv (by simp)
      obtain ⟨pq, hpq⟩ := hc2 pv (by simp)
      simp only [buildRows, htq, hpq]
    | tv :: tvs, pv :: pvs, wv :: wvs =>
      obtain ⟨tq, htq⟩ := hc1 tv (by simp)
      obtain ⟨pq, hpq⟩ := hc2 pv (by simp)
      obtain ⟨wq, hwq⟩ := hc3 wv (by simp)
      rw [buildRows_cons_ok htq hpq hwq,
        ih (fun v hv => hc1 v (by simp [hv]))
          (fun v hv => hc2 v (by simp [hv]))
          (fun v hv => hc3 v (by simp [hv]))
          (by simpa using hshort)]

/-- A numeric coercion failure at the first offending index aborts the
loop with the uncaught error: `float(...)` is outside the try/except. -/
theorem buildRows_coercionError {times temps precips winds : List JValue}
    {i : Nat} (hit : i < times.length) (h1 : i < temps.length)
    (h2 : i < precips.length) (h3 : i < winds.length)
    (hpre : ∀ j, j < i → CoercesOk (temps.getD j .null) ∧
      CoercesOk (precips.getD j .null) ∧ CoercesOk (winds.getD j .null))
    (hfail : coerceFloat (temps.getD i .null) = .error () ∨
      (CoercesOk (temps.getD i .null) ∧
        coerceFloat (precips.getD i .null) = .error ()) ∨
      (CoercesOk (temps.getD i .null) ∧ CoercesOk (precips.getD i .null) ∧
        coerceFloat (winds.getD i .null) = .error ())) :
    buildRows times temps precips winds = .error .coercionError := by
  induction i generalizing times temps precips winds with
  | zero =>
    match times, temps, precips, winds with
    | [], _, _, _ => simp at hit
    | _ :: _, [], _, _ => simp at h1
    | _ :: _, _ :: _, [], _ => simp at h2
    | _ :: _, _ :: _, _ :: _, [] => simp at h3
    | tm :: tms, tv :: tvs, pv :: pvs, wv :: wvs =>
      simp only [List.getD_cons_zero] at hfail
      rcases hfail with hf | ⟨⟨tq, htq⟩, hf⟩ | ⟨⟨tq, htq⟩, ⟨pq, hpq⟩, hf⟩
      · simp only [buildRows, hf]
      · simp only [buildRows, htq, hf]
      · simp only [buildRows, htq, hpq, hf]
  | succ i ih =>
    match times, temps, precips, winds with
    | [], _, _, _ => simp at hit
    | _ :: _, [], _, _ => simp at h1
    | _ :: _, _ :: _, [], _ => simp at h2
    | _ :: _, _ :: _, _ :: _, [] => simp at h3
    | tm :: tms, tv :: tvs, pv :: pvs, wv :: wvs =>
      obtain ⟨⟨tq, htq⟩, ⟨pq, hpq⟩, ⟨wq, hwq⟩⟩ := hpre 0 (Nat.succ_pos i)
      simp only [List.getD_cons_zero] at htq hpq hwq
      rw [buildRows_cons_ok htq hpq hwq,
        ih (by simpa using hit) (by simpa using h1) (by simpa using h2)
          (by simpa using h3)
          (fun j hj => by simpa using hpre (j + 1) (by omega))
          (by simpa using hfail)]

/-! ## Sorting facts -/

instance : IsTotal Row dtRowLe := ⟨fun a b => Nat.le_total _ _⟩

instance : IsTrans Row dtRowLe := ⟨fun a b c => Nat.le_trans⟩

instance : IsTotal Row strRowLe := ⟨fun a b => le_total _ _⟩

instance : IsTrans Row strRowLe := ⟨fun a b c => le_trans⟩

theorem isEmpty_false_of_len {rows : List Row} (h : 2 ≤ rows.length) :
    ¬(rows.isEmpty = true) := by
  cases rows with
  | nil => simp at h
  | cons r t => simp

theorem sortRows_dt {rows : List Row} (hlen : 2 ≤ rows.length)
    (hdt : rows.all tsIsDt = true) :
    sortRows rows = .ok (List.insertionSort dtRowLe rows) ∧
      List.Sorted dtRowLe (List.insertionSort dtRowLe rows) ∧
      List.Perm (List.insertionSort dtRowLe rows) rows := by
  refine ⟨?_, List.sorted_insertionSort dtRowLe rows,
    List.perm_insertionSort dtRowLe rows⟩
  rw [sortRows, if_neg (isEmpty_false_of_len hlen),
    if_neg (by omega : ¬rows.length = 1), if_pos hdt]

theorem sortRows_str {rows : List Row} (hlen : 2 ≤ rows.length)
    (hdt : rows.all tsIsDt = false) (hstr : rows.all tsIsStr = true) :
    sortRows rows = .ok (List.insertionSort strRowLe rows) ∧
      List.Sorted strRowLe (List.insertionSort strRowLe rows) ∧
      List.Perm (List.insertionSort strRowLe rows) rows := by
  refine ⟨?_, List.sorted_insertionSort strRowLe rows,
    List.perm_insertionSort strRowLe rows⟩
  rw [sortRows, if_neg (isEmpty_false_of_len hlen),
    if_neg (by omega : ¬rows.length = 1), if_neg (by simp [hdt]),
    if_pos hstr]

theorem sortRows_mixed {rows : List Row} (hlen : 2 ≤ rows.length)
    (hdt : rows.all tsIsDt = false) (hstr : rows.all tsIsStr = false) :
    sortRows rows = .error .typeError := by
  rw [sortRows, if_neg (isEmpty_false_of_len hlen),
    if_neg (by omega : ¬rows.length = 1), if_neg (by simp [hdt]),
    if_neg (by simp [hstr])]

/-! ## Run-level facts -/

theorem runPipeline_netFail (fs : FS) :
    runPipeline fs .netFail =
      ({ fs with dirExists := true }, .error .netError) := rfl

theorem runPipeline_http (fs : FS) {status : Nat} (body : String)
    (h : raiseForStatus status = true) :
    runPipeline fs (.success status body) =
      ({ fs with dirExists := true }, .error .httpError) := by
  simp only [runPipeline, h, if_true]

theorem runPipeline_success (fs : FS) {status : Nat}
    (h : raiseForStatus status = false) {body : String} {raw : JValue}
    (hl : loads body = some raw) :
    runPipeline fs (.success status body) =
      (match transform raw with
       | .error e =>
         ({ { fs with dirExists := true } with
             rawFile := some (dumps raw) }, .error (.transformError e))
       | .ok rows =>
         match sortRows (dropna rows) with
         | .error e =>
           ({ { fs with dirExists := true } with
               rawFile := some (dumps raw) }, .error (.sortError e))
         | .ok sorted =>
           ({ { { fs with dirExists := true } with
                 rawFile := some (dumps raw) } with
               cleanFile := some (toCsv sorted) }, .ok ())) := by
  simp only [runPipeline, h, hl, Bool.false_eq_true, if_false]

theorem runPipeline_jsonError (fs : FS) {status : Nat}
    (h : raiseForStatus status = false) {body : String}
    (hl : loads body = none) :
    runPipeline fs (.success status body) =
      ({ fs with dirExists := true }, .error .jsonError) := by
  simp only [runPipeline, h, hl, Bool.false_eq_true, if_false]

/-! ## The claims -/

/-- C8: Round-trip — for every decoded API response, writing it as
indented JSON (`json.dump(raw, f, indent=2)`) and reading the file back
(`json.loads`) yields a document deep-equal to the originally decoded
response. -/
theorem C8_raw_json_roundtrip : ∀ v : JValue, loads (dumps v) = some v :=
  loads_dumps

/-- C2 (counterexample): the claim says every non-2xx status aborts the
run before either output file is written, but `raise_for_status` raises
only for 4xx/5xx.  A final status 300 with a JSON body proceeds and
writes the raw file, refuting the claim as stated. -/
theorem C2_cex :
    (runPipeline ⟨false, none, none⟩ (.success 300 "{}")).1.rawFile =
      some "{}" := rfl

/-- C2 (amended): for every run whose GET fails at the network level or
returns a status in 400..599 (the statuses `raise_for_status` raises
for), the pipeline aborts with an error before writing either output
file: both files are exactly as they were. -/
theorem C2_amended (fs : FS) (f : FetchResult)
    (h : f = .netFail ∨
      ∃ s b, f = .success s b ∧ 400 ≤ s ∧ s < 600) :
    (runPipeline fs f).1.rawFile = fs.rawFile ∧
      (runPipeline fs f).1.cleanFile = fs.cleanFile ∧
      ∃ e, (runPipeline fs f).2 = .error e := by
  rcases h with h | ⟨s, b, rfl, hs1, hs2⟩
  · subst h
    exact ⟨rfl, rfl, .netError, rfl⟩
  · have hrs : raiseForStatus s = true := by
      rw [raiseForStatus]
      exact decide_eq_true ⟨hs1, hs2⟩
    rw [runPipeline_http fs b hrs]
    exact ⟨rfl, rfl, .httpError, rfl⟩

theorem C2_amended_witness :
    (runPipeline ⟨false, none, none⟩ (.success 500 "{}")).1.rawFile = none ∧
      (runPipeline ⟨false, none, none⟩ (.success 500 "{}")).1.cleanFile =
        none ∧
      ∃ e, (runPipeline ⟨false, none, none⟩ (.success 500 "{}")).2 =
        .error e :=
  C2_amended ⟨false, none, none⟩ (.success 500 "{}")
    (Or.inr ⟨500, "{}", rfl, by omega, by omega⟩)

/-- C10: the data directory is created (idempotently) before the HTTP
request is issued: after every run the directory exists, and a run that
aborts at the fetch (network failure, or a status `raise_for_status`
raises for) changes nothing but the directory flag — directory creation
is the only filesystem change such a failed run makes. -/
theorem C10_dir_created_before_fetch (fs : FS) (f : FetchResult) :
    (runPipeline fs f).1.dirExists = true ∧
      ((f = .netFail ∨ ∃ s b, f = .success s b ∧ raiseForStatus s = true) →
        (runPipeline fs f).1 = { fs with dirExists := true } ∧
          ∃ e, (runPipeline fs f).2 = .error e) := by
  constructor
  · cases f with
    | netFail => rfl
    | success s b =>
      rw [runPipeline]
      split
      · rfl
      · split
        · rfl
        · split
          · rfl
          · split
            · rfl
            · rfl
  · rintro (rfl | ⟨s, b, rfl, hrs⟩)
    · exact ⟨rfl, .netError, rfl⟩
    · rw [runPipeline_http fs b hrs]
      exact ⟨rfl, .httpError, rfl⟩

theorem C10_dir_created_before_fetch_witness :
    (runPipeline ⟨false, some "old", some "old"⟩ .netFail).1.dirExists =
      true ∧
      (runPipeline ⟨false, some "old", some "old"⟩ .netFail).1 =
        { dirExists := true, rawFile := some "old",
          cleanFile := some "old" } ∧
      ∃ e, (runPipeline ⟨false, some "old", some "old"⟩ .netFail).2 =
        .error e := by
  obtain ⟨h1, h2⟩ := C10_dir_created_before_fetch
    ⟨false, some "old", some "old"⟩ .netFail
  obtain ⟨h3, h4⟩ := h2 (Or.inl rfl)
  exact ⟨h1, h3, h4⟩

/-- C9: determinism/idempotence — running the pipeline twice with an
unchanged fetch outcome leaves both output files with byte-identical
content after the second run (each path either rewrites the same bytes
or carries the first run's file through unchanged), and the second run's
outcome equals the first's. -/
theorem C9_idempotent_outputs (fs : FS) (f : FetchResult) :
    (runPipeline (runPipeline fs f).1 f).1.rawFile =
        (runPipeline fs f).1.rawFile ∧
      (runPipeline (runPipeline fs f).1 f).1.cleanFile =
        (runPipeline fs f).1.cleanFile ∧
      (runPipeline (runPipeline fs f).1 f).2 = (runPipeline fs f).2 := by
  cases f with
  | netFail => exact ⟨rfl, rfl, rfl⟩
  | success s b =>
    cases hrs : raiseForStatus s with
    | true =>
      rw [runPipeline_http fs b hrs,
        runPipeline_http { fs with dirExists := true } b hrs]
      exact ⟨rfl, rfl, rfl⟩
    | false =>
      cases hl : loads b with
      | none =>
        rw [runPipeline_jsonError fs hrs hl,
          runPipeline_jsonError { fs with dirExists := true } hrs hl]
        exact ⟨rfl, rfl, rfl⟩
      | some raw =>
        cases ht : transform raw with
        | error e =>
          simp only [runPipeline_success _ hrs hl, ht]
          exact ⟨trivial, trivial, trivial⟩
        | ok rows =>
          cases hsort : sortRows (dropna rows) with
          | error e =>
            simp only [runPipeline_success _ hrs hl, ht, hsort]
            exact ⟨trivial, trivial, trivial⟩
          | ok sorted =>
            simp only [runPipeline_success _ hrs hl, ht, hsort]
            exact ⟨trivial, trivial, trivial⟩

/-- C1 (counterexample): the claim says that with unequal sequence
lengths — including an absent value key degrading to an empty sequence —
row-building completes without error on the overlap.  With one time
entry and the three value keys absent (empty sequences), the first
iteration's `temps[i]` raises `IndexError`: row-building does not
complete. -/
theorem C1_cex :
    buildRows [.str "2024-01-01T00:00"] [] [] [] = .error .indexError := rfl

/-- C1 (amended): the loop bound is `len(times)`, not the shortest
length.  When (coercions succeeding) every value sequence has at least
`len(times)` entries, exactly the first `len(times)` positions are
processed and row-building completes; when any value sequence is shorter
than the time sequence (an absent key gives the empty sequence),
row-building aborts with `IndexError`. -/
theorem C1_amended (times temps precips winds : List JValue)
    (hc1 : ∀ v ∈ temps, CoercesOk v) (hc2 : ∀ v ∈ precips, CoercesOk v)
    (hc3 : ∀ v ∈ winds, CoercesOk v) :
    ((times.length ≤ temps.length ∧ times.length ≤ precips.length ∧
        times.length ≤ winds.length) →
      ∃ rs, buildRows times temps precips winds = .ok rs ∧
        rs.length = times.length) ∧
    ((temps.length < times.length ∨ precips.length < times.length ∨
        winds.length < times.length) →
      buildRows times temps precips winds = .error .indexError) := by
  constructor
  · rintro ⟨h1, h2, h3⟩
    exact ⟨_, buildRows_ok h1 h2 h3 hc1 hc2 hc3, by simp⟩
  · intro hshort
    exact buildRows_indexError hc1 hc2 hc3 hshort

theorem C1_amended_witness :
    (∃ rs, buildRows [.str "a", .str "b"]
        [.num 1 0, .num 2 0, .num 3 0] [.num 0 0, .num 0 1]
        [.num 5 1, .num 6 1] = .ok rs ∧ rs.length = 2) ∧
      buildRows [.str "a", .str "b"] [.num 1 0] [.num 0 0, .num 0 1]
        [.num 5 1, .num 6 1] = .error .indexError := by
  refine ⟨?_, ?_⟩
  · exact (C1_amended [.str "a", .str "b"]
      [.num 1 0, .num 2 0, .num 3 0] [.num 0 0, .num 0 1]
      [.num 5 1, .num 6 1] (by decide) (by decide) (by decide)).1
      ⟨by decide, by decide, by decide⟩
  · exact (C1_amended [.str "a", .str "b"] [.num 1 0]
      [.num 0 0, .num 0 1] [.num 5 1, .num 6 1] (by decide) (by decide)
      (by decide)).2 (Or.inl (by decide))

/-- C4 (counterexample): the claim says a response yielding zero cleaned
rows still writes a header-only clean CSV.  With an absent `hourly` key
the row list is empty, `pd.DataFrame([])` has no columns, and
`sort_values("timestamp")` raises `KeyError`: the run aborts and no
clean CSV is written. -/
theorem C4_cex :
    (runPipeline ⟨false, none, none⟩ (.success 200 "{}")).2 =
        .error (.sortError .keyError) ∧
      (runPipeline ⟨false, none, none⟩ (.success 200 "{}")).1.cleanFile =
        none := ⟨rfl, rfl⟩

/-- C4 (amended): for every response that yields zero cleaned data rows
(e.g. an absent `hourly` or `time` key), the run aborts with a
`KeyError` at the `sort_values` step and the clean CSV is not written
(a prior run's file, if any, is left in place); no header-only file is
produced. -/
theorem C4_amended (fs : FS) (status : Nat) (body : String) (raw : JValue)
    (hrs : raiseForStatus status = false) (hl : loads body = some raw)
    (ht : transform raw = .ok []) :
    (runPipeline fs (.success status body)).2 =
        .error (.sortError .keyError) ∧
      (runPipeline fs (.success status body)).1.cleanFile =
        fs.cleanFile := by
  have hsort : sortRows (dropna []) = .error .keyError := rfl
  simp only [runPipeline_success fs hrs hl, ht, hsort]
  exact ⟨trivial, trivial⟩

theorem C4_amended_witness :
    (runPipeline ⟨true, some "old", some "old"⟩ (.success 200 "{}")).2 =
        .error (.sortError .keyError) ∧
      (runPipeline ⟨true, some "old", some "old"⟩
          (.success 200 "{}")).1.cleanFile = some "old" :=
  C4_amended ⟨true, some "old", some "old"⟩ 200 "{}" (.obj .nil) rfl rfl rfl

/-- The response used to refute C7: a numeric field holds the
non-numeric string `"abc"`. -/
def badCoercionRaw : JValue :=
  .obj (.cons "hourly" (.obj
    (.cons "time" (.arr (.cons (.str "2024-01-01T00:00") .nil))
    (.cons "temperature_2m" (.arr (.cons (.str "abc") .nil))
    (.cons "precipitation" (.arr (.cons (.num 0 0) .nil))
    (.cons "wind_speed_10m" (.arr (.cons (.num 0 0) .nil)) .nil))))) .nil)

/-- C7 (counterexample): the claim says a run aborting on a numeric
coercion failure leaves no output file of that run on disk.  But the raw
JSON is written before the transform: after the abort the raw file of
this very run is on disk. -/
theorem C7_cex :
    (runPipeline ⟨false, none, none⟩
        (.success 200 (dumps badCoercionRaw))).2 =
      .error (.transformError (.buildErr .coercionError)) ∧
      (runPipeline ⟨false, none, none⟩
          (.success 200 (dumps badCoercionRaw))).1.rawFile =
        some (dumps badCoercionRaw) := by
  have ht : transform badCoercionRaw =
      .error (.buildErr .coercionError) := rfl
  simp only [runPipeline_success _ (rfl : raiseForStatus 200 = false)
    (loads_dumps badCoercionRaw), ht]
  exact ⟨trivial, trivial⟩

/-- C7 (amended): a run aborting on a fatal transform error (in
particular an uncaught numeric coercion failure during row-building) is
fail-fast — no clean CSV is written — but it is not free of partial
output: the raw JSON file this run wrote before the transform remains on
disk. -/
theorem C7_amended (fs : FS) (status : Nat) (body : String) (raw : JValue)
    (e : TErr) (hrs : raiseForStatus status = false)
    (hl : loads body = some raw) (ht : transform raw = .error e) :
    (runPipeline fs (.success status body)).2 =
        .error (.transformError e) ∧
      (runPipeline fs (.success status body)).1.rawFile =
        some (dumps raw) ∧
      (runPipeline fs (.success status body)).1.cleanFile =
        fs.cleanFile := by
  simp only [runPipeline_success fs hrs hl, ht]
  exact ⟨trivial, trivial, trivial⟩

theorem C7_amended_witness :
    (runPipeline ⟨true, none, some "old"⟩
        (.success 200 (dumps badCoercionRaw))).2 =
      .error (.transformError (.buildErr .coercionError)) ∧
      (runPipeline ⟨true, none, some "old"⟩
          (.success 200 (dumps badCoercionRaw))).1.rawFile =
        some (dumps badCoercionRaw) ∧
      (runPipeline ⟨true, none, some "old"⟩
          (.success 200 (dumps badCoercionRaw))).1.cleanFile =
        some "old" :=
  C7_amended ⟨true, none, some "old"⟩ 200 (dumps badCoercionRaw)
    badCoercionRaw (.buildErr .coercionError) rfl
    (loads_dumps badCoercionRaw) rfl

/-- C5 (counterexample): the claim says a row whose time entry is the
unparseable string `"not-a-date"` is placed in a defined string-vs-
datetime ordering and the sort completes without error.  Row-building
does retain the string, but the sort of the resulting mixed column
raises `TypeError`: the sort does not complete. -/
theorem C5_cex :
    buildRows [.str "not-a-date", .str "2024-01-01T00:00"]
        [.num 1 0, .num 2 0] [.num 0 0, .num 0 0] [.num 1 0, .num 1 0] =
      .ok [mkRow (.str "not-a-date") (.num 1 0) (.num 0 0) (.num 1 0),
        mkRow (.str "2024-01-01T00:00") (.num 2 0) (.num 0 0) (.num 1 0)] ∧
      sortRows (dropna
        [mkRow (.str "not-a-date") (.num 1 0) (.num 0 0) (.num 1 0),
         mkRow (.str "2024-01-01T00:00") (.num 2 0) (.num 0 0)
           (.num 1 0)]) = .error .typeError := ⟨rfl, rfl⟩

/-- C5 (amended): for at least 2 rows the clean table is sorted
non-decreasing by timestamp when the retained timestamps are mutually
comparable — all parsed datetimes (datetime order) or all fallback
strings (string order) — and the sorted table is a permutation of the
rows; when a parsed datetime and a fallback string coexist there is no
defined cross-type ordering: `sort_values` raises `TypeError` and the
run aborts. -/
theorem C5_amended (rows : List Row) (hlen : 2 ≤ rows.length) :
    (rows.all tsIsDt = true →
      sortRows rows = .ok (List.insertionSort dtRowLe rows) ∧
        List.Sorted dtRowLe (List.insertionSort dtRowLe rows) ∧
        List.Perm (List.insertionSort dtRowLe rows) rows) ∧
    (rows.all tsIsDt = false → rows.all tsIsStr = true →
      sortRows rows = .ok (List.insertionSort strRowLe rows) ∧
        List.Sorted strRowLe (List.insertionSort strRowLe rows) ∧
        List.Perm (List.insertionSort strRowLe rows) rows) ∧
    (rows.all tsIsDt = false → rows.all tsIsStr = false →
      sortRows rows = .error .typeError) := by
  exact ⟨fun hdt => sortRows_dt hlen hdt,
    fun hdt hstr => sortRows_str hlen hdt hstr,
    fun hdt hstr => sortRows_mixed hlen hdt hstr⟩

theorem C5_amended_witness :
    (sortRows [mkRow (.str "2024-01-01T01:00") (.num 1 0) (.num 0 0)
          (.num 1 0),
        mkRow (.str "2024-01-01T00:00") (.num 2 0) (.num 0 0)
          (.num 1 0)] =
      .ok (List.insertionSort dtRowLe
        [mkRow (.str "2024-01-01T01:00") (.num 1 0) (.num 0 0) (.num 1 0),
         mkRow (.str "2024-01-01T00:00") (.num 2 0) (.num 0 0)
           (.num 1 0)]) ∧
      List.Sorted dtRowLe (List.insertionSort dtRowLe
        [mkRow (.str "2024-01-01T01:00") (.num 1 0) (.num 0 0) (.num 1 0),
         mkRow (.str "2024-01-01T00:00") (.num 2 0) (.num 0 0)
           (.num 1 0)]) ∧
      List.Perm (List.insertionSort dtRowLe
        [mkRow (.str "2024-01-01T01:00") (.num 1 0) (.num 0 0) (.num 1 0),
         mkRow (.str "2024-01-01T00:00") (.num 2 0) (.num 0 0)
           (.num 1 0)])
        [mkRow (.str "2024-01-01T01:00") (.num 1 0) (.num 0 0) (.num 1 0),
         mkRow (.str "2024-01-01T00:00") (.num 2 0) (.num 0 0)
           (.num 1 0)]) :=
  (C5_amended
    [mkRow (.str "2024-01-01T01:00") (.num 1 0) (.num 0 0) (.num 1 0),
     mkRow (.str "2024-01-01T00:00") (.num 2 0) (.num 0 0) (.num 1 0)]
    (by decide)).1 (by decide)

/-- C6: the error handling is asymmetric exactly as specified.  A
timestamp parse failure is recovered locally — the loop completes and
the offending row keeps the original string as its timestamp — while a
numeric coercion failure is not caught: the loop aborts with the fatal
coercion error at the first offending index. -/
theorem C6_asymmetric_error_handling :
    (∀ (s : String) (times' temps precips winds : List JValue),
      fromisoformat s = none →
      times'.length + 1 ≤ temps.length →
      times'.length + 1 ≤ precips.length →
      times'.length + 1 ≤ winds.length →
      (∀ v ∈ temps, CoercesOk v) → (∀ v ∈ precips, CoercesOk v) →
      (∀ v ∈ winds, CoercesOk v) →
      ∃ r rs, buildRows (.str s :: times') temps precips winds =
          .ok (r :: rs) ∧ r.timestamp = .raw (.str s)) ∧
    (∀ (times temps precips winds : List JValue) (i : Nat),
      i < times.length → i < temps.length → i < precips.length →
      i < winds.length →
      (∀ j, j < i → CoercesOk (temps.getD j .null) ∧
        CoercesOk (precips.getD j .null) ∧
        CoercesOk (winds.getD j .null)) →
      (coerceFloat (temps.getD i .null) = .error () ∨
        (CoercesOk (temps.getD i .null) ∧
          coerceFloat (precips.getD i .null) = .error ()) ∨
        (CoercesOk (temps.getD i .null) ∧ CoercesOk (precips.getD i .null) ∧
          coerceFloat (winds.getD i .null) = .error ())) →
      buildRows times temps precips winds = .error .coercionError) := by
  constructor
  · intro s times' temps precips winds hs h1 h2 h3 hc1 hc2 hc3
    have h1' : (JValue.str s :: times').length ≤ temps.length := by
      simpa using h1
    have h2' : (JValue.str s :: times').length ≤ precips.length := by
      simpa using h2
    have h3' : (JValue.str s :: times').length ≤ winds.length := by
      simpa using h3
    have hb := buildRows_ok h1' h2' h3' hc1 hc2 hc3
    rw [List.length_cons, List.range_succ_eq_map, List.map_cons] at hb
    refine ⟨_, _, hb, ?_⟩
    simp [mkRow, tsOf, hs]
  · intro times temps precips winds i hit h1 h2 h3 hpre hfail
    exact buildRows_coercionError hit h1 h2 h3 hpre hfail

theorem C6_asymmetric_error_handling_witness :
    (∃ r rs, buildRows [.str "not-a-date"] [.num 1 0] [.num 0 0]
        [.num 1 0] = .ok (r :: rs) ∧
        r.timestamp = .raw (.str "not-a-date")) ∧
      buildRows [.str "2024-01-01T00:00"] [.str "abc"] [.num 0 0]
        [.num 1 0] = .error .coercionError := by
  constructor
  · exact C6_asymmetric_error_handling.1 "not-a-date" [] [.num 1 0]
      [.num 0 0] [.num 1 0] rfl (by decide) (by decide) (by decide)
      (by decide) (by decide) (by decide)
  · exact C6_asymmetric_error_handling.2 [.str "2024-01-01T00:00"]
      [.str "abc"] [.num 0 0] [.num 1 0] 0 (by decide) (by decide)
      (by decide) (by decide) (fun j hj => by omega) (Or.inl rfl)

/-- The spec's concrete scenario response:
`hourly.time = ["2024-01-01T00:00", "2024-01-01T01:00"]`,
temperature `[5.0, 5.26]`, precipitation `[0, 0.1]`,
wind `[3.333, 4.0]`. -/
def scenarioRaw : JValue :=
  .obj (.cons "hourly" (.obj
    (.cons "time" (.arr (.cons (.str "2024-01-01T00:00")
      (.cons (.str "2024-01-01T01:00") .nil)))
    (.cons "temperature_2m" (.arr (.cons (.num 50 1)
      (.cons (.num 526 2) .nil)))
    (.cons "precipitation" (.arr (.cons (.num 0 0)
      (.cons (.num 1 1) .nil)))
    (.cons "wind_speed_10m" (.arr (.cons (.num 3333 3)
      (.cons (.num 40 1) .nil))) .nil))))) .nil)

/-- The rows the loop builds for the scenario. -/
def scenarioRows : List Row :=
  [mkRow (.str "2024-01-01T00:00") (.num 50 1) (.num 0 0) (.num 3333 3),
   mkRow (.str "2024-01-01T01:00") (.num 526 2) (.num 1 1) (.num 40 1)]

theorem sortRows_single {rows : List Row} (h : rows.length = 1) :
    sortRows rows = .ok rows := by
  rw [sortRows, if_neg (by cases rows <;> simp_all), if_pos h]

/-- C3: for every valid aligned response — the four sequences of one
common length `N ≥ 1`, every time entry an ISO string that parses,
every value numeric — the clean table exists, has at most `N` rows, and
every row is exactly the row built from one index's source entries
(timestamp parsed, each numeric field coerced to float and rounded to 2
decimal places, per `mkRow`).  In particular, the spec's concrete
scenario yields exactly the two rows
`(2024-01-01 00:00, 5.0, 0.0, 3.33)` and `(2024-01-01 01:00, 5.26,
0.1, 4.0)`.  (A zero-entry response yields no table at all — the run
aborts at the sort step; see the C4 analysis.) -/
theorem C3_rounding_contract :
    (∀ times temps precips winds : List JValue,
      temps.length = times.length → precips.length = times.length →
      winds.length = times.length → 1 ≤ times.length →
      (∀ v ∈ times, ∃ s d, v = .str s ∧ fromisoformat s = some d) →
      (∀ v ∈ temps, CoercesOk v) → (∀ v ∈ precips, CoercesOk v) →
      (∀ v ∈ winds, CoercesOk v) →
      ∃ rs tbl, buildRows times temps precips winds = .ok rs ∧
        sortRows (dropna rs) = .ok tbl ∧ tbl.length ≤ times.length ∧
        ∀ r ∈ tbl, ∃ i, i < times.length ∧
          r = mkRow (times.getD i .null) (temps.getD i .null)
            (precips.getD i .null) (winds.getD i .null)) ∧
    (transform scenarioRaw = .ok scenarioRows ∧
      sortRows (dropna scenarioRows) =
        .ok [⟨.dt ⟨2024, 1, 1, 0, 0, 0⟩, 5, 0, 333 / 100⟩,
             ⟨.dt ⟨2024, 1, 1, 1, 0, 0⟩, 263 / 50, 1 / 10, 4⟩]) := by
  constructor
  · intro times temps precips winds h1 h2 h3 hN htime hc1 hc2 hc3
    have hb := buildRows_ok (le_of_eq h1.symm) (le_of_eq h2.symm)
      (le_of_eq h3.symm) hc1 hc2 hc3
    set rs := (List.range times.length).map (fun i =>
      mkRow (times.getD i .null) (temps.getD i .null)
        (precips.getD i .null) (winds.getD i .null)) with hrs
    have hlen : rs.length = times.length := by simp [hrs]
    have hmem : ∀ r ∈ rs, ∃ i, i < times.length ∧
        r = mkRow (times.getD i .null) (temps.getD i .null)
          (precips.getD i .null) (winds.getD i .null) := by
      intro r hr
      rw [hrs, List.mem_map] at hr
      obtain ⟨i, hi, hri⟩ := hr
      exact ⟨i, List.mem_range.mp hi, hri.symm⟩
    have hdt : rs.all tsIsDt = true := by
      rw [List.all_eq_true]
      intro r hr
      obtain ⟨i, hi, hri⟩ := hmem r hr
      have hmemt : times.getD i .null ∈ times := by
        rw [List.getD_eq_getElem _ _ hi]
        exact List.getElem_mem hi
      obtain ⟨s, d, hsv, hsd⟩ := htime _ hmemt
      rw [hri, mkRow, hsv]
      simp [tsIsDt, tsOf, hsd]
    have hsort : ∃ tbl, sortRows rs = .ok tbl ∧ List.Perm tbl rs := by
      rcases Nat.lt_or_ge rs.length 2 with hlt | hge
      · have h1' : rs.length = 1 := by omega
        exact ⟨rs, sortRows_single h1', List.Perm.refl rs⟩
      · obtain ⟨ho, _, hp⟩ := sortRows_dt hge hdt
        exact ⟨_, ho, hp⟩
    obtain ⟨tbl, hok, hperm⟩ := hsort
    refine ⟨rs, tbl, hb, hok, ?_, ?_⟩
    · rw [hperm.length_eq, hlen]
    · intro r hr
      exact hmem r (hperm.mem_iff.mp hr)
  · constructor
    · rfl
    · have f1 : round2 (coerceD (.num 50 1)) = 5 := by
        rw [show coerceD (.num 50 1) =
          ((50 : Int) : Rat) / ((10 : Rat) ^ (1 : Nat)) from rfl,
          round2, roundHalfEven]
        norm_num
      have f2 : round2 (coerceD (.num 0 0)) = 0 := by
        rw [show coerceD (.num 0 0) =
          ((0 : Int) : Rat) / ((10 : Rat) ^ (0 : Nat)) from rfl,
          round2, roundHalfEven]
        norm_num
      have f3 : round2 (coerceD (.num 3333 3)) = 333 / 100 := by
        rw [show coerceD (.num 3333 3) =
          ((3333 : Int) : Rat) / ((10 : Rat) ^ (3 : Nat)) from rfl,
          round2, roundHalfEven]
        norm_num
      have f4 : round2 (coerceD (.num 526 2)) = 263 / 50 := by
        rw [show coerceD (.num 526 2) =
          ((526 : Int) : Rat) / ((10 : Rat) ^ (2 : Nat)) from rfl,
          round2, roundHalfEven]
        norm_num
      have f5 : round2 (coerceD (.num 1 1)) = 1 / 10 := by
        rw [show coerceD (.num 1 1) =
          ((1 : Int) : Rat) / ((10 : Rat) ^ (1 : Nat)) from rfl,
          round2, roundHalfEven]
        norm_num
      have f6 : round2 (coerceD (.num 40 1)) = 4 := by
        rw [show coerceD (.num 40 1) =
          ((40 : Int) : Rat) / ((10 : Rat) ^ (1 : Nat)) from rfl,
          round2, roundHalfEven]
        norm_num
      have e1 : mkRow (.str "2024-01-01T00:00") (.num 50 1) (.num 0 0)
          (.num 3333 3) = ⟨.dt ⟨2024, 1, 1, 0, 0, 0⟩, 5, 0, 333 / 100⟩ := by
        rw [mkRow, f1, f2, f3]
        rfl
      have e2 : mkRow (.str "2024-01-01T01:00") (.num 526 2) (.num 1 1)
          (.num 40 1) = ⟨.dt ⟨2024, 1, 1, 1, 0, 0⟩, 263 / 50, 1 / 10, 4⟩ := by
        rw [mkRow, f4, f5, f6]
        rfl
      have hs : sortRows (dropna scenarioRows) = .ok scenarioRows := rfl
      rw [hs, scenarioRows, e1, e2]

theorem C3_rounding_contract_witness :
    ∃ rs tbl, buildRows
        [.str "2024-01-01T00:00", .str "2024-01-01T01:00"]
        [.num 50 1, .num 526 2] [.num 0 0, .num 1 1]
        [.num 3333 3, .num 40 1] = .ok rs ∧
      sortRows (dropna rs) = .ok tbl ∧
      tbl.length ≤
        ([.str "2024-01-01T00:00", .str "2024-01-01T01:00"] :
          List JValue).length ∧
      ∀ r ∈ tbl, ∃ i, i <
          ([.str "2024-01-01T00:00", .str "2024-01-01T01:00"] :
            List JValue).length ∧
        r = mkRow
          (([.str "2024-01-01T00:00", .str "2024-01-01T01:00"] :
            List JValue).getD i .null)
          (([.num 50 1, .num 526 2] : List JValue).getD i .null)
          (([.num 0 0, .num 1 1] : List JValue).getD i .null)
          (([.num 3333 3, .num 40 1] : List JValue).getD i .null) :=
  C3_rounding_contract.1
    [.str "2024-01-01T00:00", .str "2024-01-01T01:00"]
    [.num 50 1, .num 526 2] [.num 0 0, .num 1 1]
    [.num 3333 3, .num 40 1] (by decide) (by decide) (by decide)
    (by decide)
    (fun v hv => by
      simp only [List.mem_cons, List.not_mem_nil, or_false] at hv
      rcases hv with rfl | rfl
      · exact ⟨"2024-01-01T00:00", _, rfl, rfl⟩
      · exact ⟨"2024-01-01T01:00", _, rfl, rfl⟩)
    (by decide) (by decide) (by decide)
